import Mathlib

/-!
# The control-channel receiver (`app/src/receiver.c`)

A shallow embedding of `receiver.c` and a verification of its specification.

Conventions of the embedding.

* A byte is a `Nat` (values below 256); a byte array is a `List Nat`.
* `size_t` is a `Nat` below `2 ^ 64`, `ssize_t` an `Int`; every conversion and
  every unsigned operation of the source is written with `to_size_t` /
  `to_ssize_t`, so wrap-around is part of the model.
* A C string (`char *`) is `Option (List Nat)`: `none` is `NULL`, `some s` a
  live string whose characters are `s`.
* `SDL_strdup` may fail: whether a copy can be allocated is given from outside
  (`Config.strdup_allocates`), call by call.
* The calls the source makes to its collaborators (`net_recv`,
  `device_event_deserialize`, `SDL_PushEvent`, a failing `SDL_assert`) are
  recorded, in program order, in the `log` of the `World`.
* The socket is a script: the list of the results the successive calls of
  `net_recv` deliver.
* `mutex_lock` / `mutex_unlock` are the identity: the embedding is the
  sequential semantics of each function.
-/

namespace Receiver

/-! ## Machine integers -/

/-- The number of values of a `size_t` (64-bit target). -/
def SIZE_MODULUS : Nat := 18446744073709551616

/-- Conversion of a mathematical integer to `size_t` (reduction modulo `2 ^ 64`). -/
def to_size_t (i : Int) : Nat := (i % (SIZE_MODULUS : Int)).toNat

/-- Conversion of a `size_t` to `ssize_t` (two's complement). -/
def to_ssize_t (n : Nat) : Int :=
  if n % SIZE_MODULUS < 9223372036854775808 then ((n % SIZE_MODULUS : Nat) : Int)
  else ((n % SIZE_MODULUS : Nat) : Int) - (SIZE_MODULUS : Int)

/-! ## Data model -/

/-- The `struct device_event`: its `type` and, for a clipboard event, the
characters of `clipboard_event.text`. -/
structure device_event where
  type : Nat
  text : List Nat
  deriving DecidableEq, Repr

/-- The `struct receiver` (the thread handle is not needed here). -/
structure receiver where
  mutex : Option Nat
  control_socket : Nat
  clipboard_text : Option (List Nat)
  deriving DecidableEq, Repr

/-- One recorded call to a collaborator. -/
inductive Effect where
  /-- The call `net_recv(socket, buf, len)` and the value it returned. -/
  | net_recv (len : Nat) (ret : Int)
  /-- The call `device_event_deserialize(&buf[off], len, &event)` and its result. -/
  | deserialize (off : Nat) (len : Nat) (ret : Int)
  /-- The call `process_event(receiver, &event)`. -/
  | process_event (event : device_event)
  /-- The call `SDL_PushEvent(&device_clipboard_event)`. -/
  | SDL_PushEvent
  /-- An `SDL_assert` whose condition was false. -/
  | assert_failed
  deriving DecidableEq, Repr

/-- What `receiver.c` takes from outside. The constants of `device_event.h`,
which is not part of the sources: the tag of a clipboard event and the capacity
of the receive buffer. And the allocator behind `SDL_strdup`: whether the copy
of a string can be allocated, given the calls recorded so far. -/
structure Config where
  DEVICE_EVENT_TYPE_CLIPBOARD : Nat
  DEVICE_EVENT_SERIALIZED_MAX_SIZE : Nat
  strdup_allocates : List Effect → List Nat → Bool

/-- The receiver together with the record of the calls made so far. -/
structure World where
  receiver : receiver
  log : List Effect
  deriving DecidableEq, Repr

/-- Append one call to the record. -/
def World.emit (w : World) (e : Effect) : World :=
  { w with log := w.log ++ [e] }

/-- The result of one `net_recv`: the returned value and the bytes it stored. -/
structure recv_result where
  ret : Int
  bytes : List Nat
  deriving DecidableEq, Repr

/-- What `net_recv` may deliver when asked for `len` bytes: `-1`, or between
`0` and `len` bytes. -/
def recv_result.valid (len : Nat) (rr : recv_result) : Prop :=
  (rr.ret = -1 ∧ rr.bytes = []) ∨
    (0 ≤ rr.ret ∧ rr.ret ≤ (len : Int) ∧ (rr.bytes.length : Int) = rr.ret)

instance recv_result.valid_decidable (len : Nat) (rr : recv_result) :
    Decidable (rr.valid len) :=
  inferInstanceAs (Decidable ((rr.ret = -1 ∧ rr.bytes = []) ∨
    (0 ≤ rr.ret ∧ rr.ret ≤ (len : Int) ∧ (rr.bytes.length : Int) = rr.ret)))

/-- The type of `device_event_deserialize`: from the bytes `buf[0..len)` to the
returned `ssize_t` and the event written through the out-parameter. -/
abbrev Deserializer := List Nat → Int × device_event

/-- Store `bytes` into `buf` from offset `off` on (`memcpy` into an array). -/
def blit (buf : List Nat) (off : Nat) (bytes : List Nat) : List Nat :=
  buf.take off ++ bytes ++ buf.drop (off + bytes.length)

/-- The bytes `buf[off .. off + len)`. -/
def window (buf : List Nat) (off len : Nat) : List Nat :=
  (buf.drop off).take len

/-! ## The functions of `receiver.c` -/

/-- The `SDL_strdup` of a string, called after the calls `log`: a fresh copy, or
`NULL` when the allocation fails. -/
def SDL_strdup (cfg : Config) (log : List Effect) (s : List Nat) : Option (List Nat) :=
  if cfg.strdup_allocates log s then some s else none

/-- The function `receiver_init`: `created` is what `SDL_CreateMutex` returned. -/
def receiver_init (created : Option Nat) (r : receiver) (control_socket : Nat) :
    Bool × receiver :=
  match created with
  | none => (false, { r with mutex := none })
  | some m =>
      (true, { mutex := some m, control_socket := control_socket, clipboard_text := none })

/-- The function `process_event`. The slot receives whatever `SDL_strdup`
returns, `NULL` included, and the notification is posted in both cases. -/
def process_event (cfg : Config) (w : World) (event : device_event) : World :=
  let w := w.emit (.process_event event)
  if event.type = cfg.DEVICE_EVENT_TYPE_CLIPBOARD then
    let w := { w with
      receiver := { w.receiver with clipboard_text := SDL_strdup cfg w.log event.text } }
    w.emit .SDL_PushEvent
  else
    w

/-- The function `receiver_consume_device_clipboard`: the returned pointer and
the receiver afterwards. -/
def receiver_consume_device_clipboard (r : receiver) : Option (List Nat) × receiver :=
  let clipboard_text := r.clipboard_text
  (clipboard_text, { r with clipboard_text := none })

/-- One turn of the `for (;;)` of `process_events`. -/
inductive Turn where
  /-- The function returns `ret`. -/
  | ret (ret : Int) (w : World)
  /-- The loop goes on with the new `head`. -/
  | next (head : Nat) (w : World)
  deriving DecidableEq, Repr

/-- The body of the loop of `process_events`, entered with `head`. -/
def process_events_turn (cfg : Config) (dec : Deserializer) (buf : List Nat) (len : Nat)
    (head : Nat) (w : World) : Turn :=
  let avail := to_size_t ((len : Int) - (head : Int))
  let (r, event) := dec (window buf head avail)
  let w := w.emit (.deserialize head avail r)
  if r = -1 then .ret (-1) w
  else if r = 0 then .ret (to_ssize_t head) w
  else
    let w := process_event cfg w event
    let head := to_size_t ((head : Int) + r)
    let w := if head ≤ len then w else w.emit .assert_failed
    if head = len then .ret (to_ssize_t head) w
    else .next head w

/-- The loop of `process_events`, with at most `fuel` turns. -/
def process_events_loop (cfg : Config) (dec : Deserializer) (buf : List Nat) (len : Nat) :
    Nat → Nat → World → Option (Int × World)
  | 0, _, _ => none
  | fuel + 1, head, w =>
      match process_events_turn cfg dec buf len head w with
      | .ret v w1 => some (v, w1)
      | .next head1 w1 => process_events_loop cfg dec buf len fuel head1 w1

/-- The function `process_events`. -/
def process_events (cfg : Config) (dec : Deserializer) (fuel : Nat) (w : World)
    (buf : List Nat) (len : Nat) : Option (Int × World) :=
  process_events_loop cfg dec buf len fuel 0 w

/-- The locals of `run_receiver` and the world. -/
structure run_state where
  buf : List Nat
  head : Nat
  world : World
  deriving DecidableEq, Repr

/-- How one turn of the loop of `run_receiver` ends. -/
inductive Flow where
  /-- The loop is left by `break`. -/
  | brk (s : run_state)
  /-- The loop goes round again. -/
  | cont (s : run_state)
  deriving DecidableEq, Repr

/-- The length `run_receiver` passes to `net_recv`. -/
def requested (cfg : Config) (head : Nat) : Nat :=
  to_size_t ((cfg.DEVICE_EVENT_SERIALIZED_MAX_SIZE : Int) - (head : Int))

/-- The call `net_recv(socket, &buf[off], len)` when the socket delivers `rr`:
the returned value, the array afterwards and the world afterwards. -/
def net_recv (rr : recv_result) (buf : List Nat) (off len : Nat) (w : World) :
    Int × List Nat × World :=
  (rr.ret, blit buf off rr.bytes, w.emit (.net_recv len rr.ret))

/-- The body of the loop of `run_receiver`, when `net_recv` delivers `rr`. The
source passes `buf` itself to `net_recv`, that is offset `0`, and `r` as the
length of the window of `process_events`. -/
def run_receiver_turn (cfg : Config) (dec : Deserializer) (fuel : Nat) (rr : recv_result)
    (s : run_state) : Option Flow :=
  let (r, buf, w) := net_recv rr s.buf 0 (requested cfg s.head) s.world
  let w := if r = 0 then w.emit .assert_failed else w
  if r = -1 then some (.brk { buf := buf, head := s.head, world := w })
  else
    match process_events cfg dec fuel w buf (to_size_t r) with
    | none => none
    | some (consumed, w1) =>
        if consumed = -1 then some (.brk { buf := buf, head := s.head, world := w1 })
        else if consumed ≠ 0 then
          let n := to_size_t (r - consumed)
          some (.cont { buf := blit buf 0 (window buf consumed.toNat n), head := n, world := w1 })
        else some (.cont { buf := buf, head := s.head, world := w1 })

/-- How `run_receiver` ends on a script of reads. -/
inductive Outcome where
  /-- The function returned `ret`. -/
  | returned (ret : Int) (s : run_state)
  /-- The script is used up: the thread waits in `net_recv`. -/
  | blocked (s : run_state)
  deriving DecidableEq, Repr

/-- The loop of `run_receiver` over the script of reads. -/
def run_receiver_loop (cfg : Config) (dec : Deserializer) (fuel : Nat) :
    List recv_result → run_state → Option Outcome
  | [], s => some (.blocked s)
  | rr :: rest, s =>
      match run_receiver_turn cfg dec fuel rr s with
      | none => none
      | some (.brk s1) => some (.returned 0 s1)
      | some (.cont s1) => run_receiver_loop cfg dec fuel rest s1

/-- The function `run_receiver`: `buf0` is the content of the local array on entry. -/
def run_receiver (cfg : Config) (dec : Deserializer) (fuel : Nat) (buf0 : List Nat)
    (script : List recv_result) (w : World) : Option Outcome :=
  run_receiver_loop cfg dec fuel script { buf := buf0, head := 0, world := w }

/-! ## The frame decoder -/

/-- Modelled from the spec: `device_event_deserialize` (`device_event.c` is not
part of the sources). A clipboard frame is the tag, a 4-byte big-endian length
`N` and `N` bytes of text. No byte at all, a header that is not complete, or a
payload that is not complete: `0`. An unknown tag, or `5 + N` above the maximal
frame size: `-1`. Otherwise `5 + N` and the clipboard event. -/
def device_event_deserialize (cfg : Config) : Deserializer := fun buf =>
  match buf with
  | [] => (0, ⟨0, []⟩)
  | tag :: rest =>
      if tag ≠ cfg.DEVICE_EVENT_TYPE_CLIPBOARD then (-1, ⟨tag, []⟩)
      else
        match rest with
        | b3 :: b2 :: b1 :: b0 :: payload =>
            let n := ((b3 * 256 + b2) * 256 + b1) * 256 + b0
            if 5 + n > cfg.DEVICE_EVENT_SERIALIZED_MAX_SIZE then (-1, ⟨tag, []⟩)
            else if payload.length < n then (0, ⟨tag, []⟩)
            else (((5 + n : Nat) : Int), ⟨tag, payload.take n⟩)
        | _ => (0, ⟨tag, []⟩)

/-- Modelled from the spec: the wire format of a clipboard frame (frames are
serialized by the peer, not by these sources): the tag, the length of the text
on 4 bytes, big-endian, and the text. -/
def clipboard_frame (cfg : Config) (text : List Nat) : List Nat :=
  let n := text.length
  cfg.DEVICE_EVENT_TYPE_CLIPBOARD ::
    (n / 16777216 % 256) :: (n / 65536 % 256) :: (n / 256 % 256) :: (n % 256) :: text

/-! ## Observations on the record of calls -/

/-- The events handed to `process_event`, in order. -/
def dispatched : List Effect → List device_event
  | [] => []
  | .process_event e :: rest => e :: dispatched rest
  | _ :: rest => dispatched rest

/-- The number of notifications posted with `SDL_PushEvent`. -/
def notifications : List Effect → Nat
  | [] => 0
  | .SDL_PushEvent :: rest => notifications rest + 1
  | _ :: rest => notifications rest

/-- The number of decode attempts (calls of `device_event_deserialize`). -/
def decode_attempts : List Effect → Nat
  | [] => 0
  | .deserialize _ _ _ :: rest => decode_attempts rest + 1
  | _ :: rest => decode_attempts rest

/-- The number of reads (calls of `net_recv`). -/
def reads : List Effect → Nat
  | [] => 0
  | .net_recv _ _ :: rest => reads rest + 1
  | _ :: rest => reads rest

/-- The state in which `run_receiver` ended or waits. -/
def Outcome.state : Outcome → run_state
  | .returned _ s => s
  | .blocked s => s

/-! ## Frames, offsets reached, reachable states -/

/-- From offset `head`, the window `buf[0..len)` holds the complete frames
`frames` (the size and the event the decoder reports for each, a size being at
least 1 and within the window), and at the offset after them the decoder
answers `last`. -/
def Framed (dec : Deserializer) (buf : List Nat) (len : Nat) (last : Int) :
    Nat → List (Nat × device_event) → Prop
  | head, [] => (dec (window buf head (len - head))).1 = last
  | head, f :: rest =>
      1 ≤ f.1 ∧ head + f.1 ≤ len ∧ dec (window buf head (len - head)) = ((f.1 : Int), f.2) ∧
        Framed dec buf len last (head + f.1) rest

instance Framed.decidable (dec : Deserializer) (buf : List Nat) (len : Nat) (last : Int) :
    ∀ (frames : List (Nat × device_event)) (head : Nat),
      Decidable (Framed dec buf len last head frames)
  | [], head => (inferInstance : Decidable ((dec (window buf head (len - head))).1 = last))
  | f :: rest, head =>
      have := Framed.decidable dec buf len last rest (head + f.1)
      (inferInstance : Decidable (1 ≤ f.1 ∧ head + f.1 ≤ len ∧
        dec (window buf head (len - head)) = ((f.1 : Int), f.2) ∧
          Framed dec buf len last (head + f.1) rest))

/-- The sum of the sizes of the frames. -/
def frames_size : List (Nat × device_event) → Nat
  | [] => 0
  | f :: rest => f.1 + frames_size rest

/-- The offsets a pass of `process_events` over `buf[0..len)` reaches from the
world `w0`: `Reached .. w0 head w` when the loop is entered with `head` in the
world `w`. -/
inductive Reached (cfg : Config) (dec : Deserializer) (buf : List Nat) (len : Nat)
    (w0 : World) : Nat → World → Prop where
  | start : Reached cfg dec buf len w0 0 w0
  | step {head : Nat} {w : World} {head1 : Nat} {w1 : World} :
      Reached cfg dec buf len w0 head w →
      process_events_turn cfg dec buf len head w = .next head1 w1 →
      Reached cfg dec buf len w0 head1 w1

/-- A decoder that answers `-1`, `0`, or a size between 1 and the number of
bytes it was given. -/
def Deserializer.bounded (dec : Deserializer) : Prop :=
  ∀ x : List Nat, (dec x).1 = -1 ∨ (0 ≤ (dec x).1 ∧ (dec x).1 ≤ (x.length : Int))

/-- The states at the top of the loop of `run_receiver`, when every `net_recv`
returns `-1` or between 1 and the requested number of bytes. -/
inductive Reachable (cfg : Config) (dec : Deserializer) (fuel : Nat) (buf0 : List Nat)
    (w0 : World) : run_state → Prop where
  | init : Reachable cfg dec fuel buf0 w0 { buf := buf0, head := 0, world := w0 }
  | step {s : run_state} {rr : recv_result} {s1 : run_state} :
      Reachable cfg dec fuel buf0 w0 s →
      rr.valid (requested cfg s.head) → rr.ret ≠ 0 →
      run_receiver_turn cfg dec fuel rr s = some (.cont s1) →
      Reachable cfg dec fuel buf0 w0 s1

/-- The world after the decode attempt and the dispatch of each of the frames
`frames`, found from offset `head` on in a window of `len` bytes. -/
def after_frames (cfg : Config) (len : Nat) : Nat → List (Nat × device_event) → World → World
  | _, [], w => w
  | head, f :: rest, w =>
      after_frames cfg len (head + f.1) rest
        (process_event cfg (w.emit (.deserialize head (len - head) (f.1 : Int))) f.2)

/-- The number of clipboard events among the frames. -/
def clipboard_count (cfg : Config) : List (Nat × device_event) → Nat
  | [] => 0
  | f :: rest =>
      (if f.2.type = cfg.DEVICE_EVENT_TYPE_CLIPBOARD then 1 else 0) + clipboard_count cfg rest

/-- The world in which a turn of `run_receiver` enters `process_events`: the
read is recorded, and so is the failure of `SDL_assert(r)` when `r` is `0`. -/
def world_after_read (cfg : Config) (rr : recv_result) (s : run_state) : World :=
  let w := s.world.emit (.net_recv (requested cfg s.head) rr.ret)
  if rr.ret = 0 then w.emit .assert_failed else w

/-- The world after `process_event` has been applied to the clipboard events
carrying the texts `texts`, in order. -/
def process_clipboard_texts (cfg : Config) (w : World) (texts : List (List Nat)) : World :=
  texts.foldl (fun w1 t => process_event cfg w1 ⟨cfg.DEVICE_EVENT_TYPE_CLIPBOARD, t⟩) w

/-! ## Further observations -/

/-- The number of `SDL_assert`s whose condition was false. -/
def assertion_failures : List Effect → Nat
  | [] => 0
  | .assert_failed :: rest => assertion_failures rest + 1
  | _ :: rest => assertion_failures rest

/-- The world in which a turn of `process_events` ends. -/
def Turn.world : Turn → World
  | .ret _ w => w
  | .next _ w => w

/-- The content of the slot once the calls `new` have been recorded after the
calls `past`, from the content `slot`: each recorded `process_event` of a
clipboard event stores what `SDL_strdup` returns at that point. -/
def slot_after (cfg : Config) :
    List Effect → Option (List Nat) → List Effect → Option (List Nat)
  | _, slot, [] => slot
  | past, slot, .process_event e :: rest =>
      slot_after cfg (past ++ [.process_event e])
        (if e.type = cfg.DEVICE_EVENT_TYPE_CLIPBOARD then
          SDL_strdup cfg (past ++ [.process_event e]) e.text
        else slot) rest
  | past, slot, x :: rest => slot_after cfg (past ++ [x]) slot rest

/-- The last clipboard event among the events, if any. -/
def last_clipboard (cfg : Config) : List device_event → Option device_event
  | [] => none
  | e :: rest =>
      match last_clipboard cfg rest with
      | some e1 => some e1
      | none => if e.type = cfg.DEVICE_EVENT_TYPE_CLIPBOARD then some e else none

/-- The number of clipboard events among the events. -/
def clipboard_events (cfg : Config) (events : List device_event) : Nat :=
  (events.filter (fun e => e.type = cfg.DEVICE_EVENT_TYPE_CLIPBOARD)).length

/-- The bytes a turn of `process_events` entered with `head` hands to the
decoder: `&buf[head]` with the length `len - head`. -/
def decode_input (buf : List Nat) (len head : Nat) : List Nat :=
  window buf head (to_size_t ((len : Int) - (head : Int)))

/-! ## The mailbox on the heap

The same functions with the slot as a pointer into a heap of strings, to follow
which allocations are live. The text of the event is given by value: where the
decoder put it is not the business of `receiver.c`. The copies are taken to be
allocated: a failed `SDL_strdup` frees nothing either. -/

namespace Mem

/-- The heap of strings: the live allocations (address and characters), newest
first, and the next fresh address. -/
structure Heap where
  live : List (Nat × List Nat)
  next : Nat
  deriving DecidableEq, Repr

/-- The `struct receiver` with `clipboard_text` as a pointer: `none` is `NULL`,
`some a` the address `a`. -/
structure receiver where
  mutex : Option Nat
  control_socket : Nat
  clipboard_text : Option Nat
  deriving DecidableEq, Repr

/-- The characters of the live string at an address. -/
def Heap.read (h : Heap) (a : Nat) : Option (List Nat) :=
  (h.live.find? (fun p => p.1 = a)).map Prod.snd

/-- Whether the address is a live allocation. -/
def Heap.is_live (h : Heap) (a : Nat) : Bool :=
  h.live.any (fun p => p.1 = a)

/-- The `SDL_strdup` of a string: a copy at a fresh address (allocation succeeds). -/
def SDL_strdup (h : Heap) (s : List Nat) : Option Nat × Heap :=
  (some h.next, { live := (h.next, s) :: h.live, next := h.next + 1 })

/-- The `SDL_free` of a pointer: the allocation is released; `SDL_free(NULL)`
does nothing. -/
def SDL_free (h : Heap) : Option Nat → Heap
  | none => h
  | some a => { h with live := h.live.filter (fun p => p.1 ≠ a) }

/-- The function `process_event`: the heap and the receiver afterwards. -/
def process_event (cfg : Config) (h : Heap) (r : receiver) (event : device_event) :
    Heap × receiver :=
  if event.type = cfg.DEVICE_EVENT_TYPE_CLIPBOARD then
    let (p, h1) := SDL_strdup h event.text
    (h1, { r with clipboard_text := p })
  else
    (h, r)

/-- The function `receiver_consume_device_clipboard`: the returned pointer,
which the caller owns from then on, and the receiver afterwards. -/
def receiver_consume_device_clipboard (r : receiver) : Option Nat × receiver :=
  let clipboard_text := r.clipboard_text
  (clipboard_text, { r with clipboard_text := none })

/-- The function `receiver_destroy`: the heap after `SDL_DestroyMutex` and
`SDL_free(receiver->clipboard_text)`. -/
def receiver_destroy (h : Heap) (r : receiver) : Heap :=
  SDL_free h r.clipboard_text

/-- The receiver by value that a heap and a receiver with a pointer stand for. -/
def abstraction (h : Heap) (r : receiver) : Receiver.receiver :=
  { mutex := r.mutex, control_socket := r.control_socket,
    clipboard_text := r.clipboard_text.bind h.read }

/-- The empty heap. -/
def empty_heap : Heap := { live := [], next := 0 }

/-- An initialised receiver with an empty slot. -/
def fresh_receiver : receiver := { mutex := some 1, control_socket := 7, clipboard_text := none }

/-- The heap and the receiver after two clipboard events, of the texts `a` and
then `b`, have been applied with `process_event` to a fresh receiver on the
empty heap, with no consume in between. -/
def after_two_events (cfg : Config) (a b : List Nat) : Heap × receiver :=
  let s1 := process_event cfg empty_heap fresh_receiver ⟨cfg.DEVICE_EVENT_TYPE_CLIPBOARD, a⟩
  process_event cfg s1.1 s1.2 ⟨cfg.DEVICE_EVENT_TYPE_CLIPBOARD, b⟩

end Mem

/-! ## Sample data for the concrete instances -/

/-- A sample configuration: clipboard tag 0, a buffer of 32 bytes, and an
allocator that never fails. -/
def sample_cfg : Config :=
  { DEVICE_EVENT_TYPE_CLIPBOARD := 0, DEVICE_EVENT_SERIALIZED_MAX_SIZE := 32,
    strdup_allocates := fun _ _ => true }

/-- The sample configuration with an allocator that always fails. -/
def out_of_memory_cfg : Config :=
  { DEVICE_EVENT_TYPE_CLIPBOARD := 0, DEVICE_EVENT_SERIALIZED_MAX_SIZE := 32,
    strdup_allocates := fun _ _ => false }

/-- A sample world: an initialised receiver with an empty slot, nothing recorded. -/
def sample_world : World :=
  { receiver := { mutex := some 1, control_socket := 7, clipboard_text := none }, log := [] }

/-- A sample content of the local array of `run_receiver` on entry. -/
def sample_buf : List Nat := List.replicate 32 255

/-- The characters of `hello`. -/
def hello : List Nat := [104, 101, 108, 108, 111]

/-- The state in which `run_receiver` enters its loop on the sample data. -/
def sample_state : run_state := { buf := sample_buf, head := 0, world := sample_world }

/-- A read of 13 bytes: the frame of `hello` followed by three bytes of the
next frame. -/
def sample_read : recv_result :=
  { ret := 13, bytes := [0, 0, 0, 0, 5, 104, 101, 108, 108, 111, 0, 0, 0] }

/-- The state of `run_receiver` after the turn that reads `sample_read`. -/
def sample_state_after : run_state :=
  { buf := [0, 0, 0, 0, 5, 104, 101, 108, 108, 111, 0, 0, 0] ++ List.replicate 19 255,
    head := 3,
    world :=
      { receiver := { mutex := some 1, control_socket := 7, clipboard_text := some hello },
        log := [.net_recv 32 13, .deserialize 0 13 10, .process_event ⟨0, hello⟩,
          .SDL_PushEvent, .deserialize 10 3 0] } }

/-- A read of 11 bytes: the frame of `hello` followed by the unknown tag 9. -/
def sample_bad_read : recv_result :=
  { ret := 11, bytes := [0, 0, 0, 0, 5, 104, 101, 108, 108, 111, 9] }

/-! ## Machine integers: the conversions within range -/

theorem to_size_t_natCast {n : Nat} (h : n < SIZE_MODULUS) : to_size_t (n : Int) = n := by
  unfold to_size_t
  unfold SIZE_MODULUS at *
  omega

theorem to_size_t_sub {a b : Nat} (hb : b ≤ a) (ha : a < SIZE_MODULUS) :
    to_size_t ((a : Int) - (b : Int)) = a - b := by
  unfold to_size_t
  unfold SIZE_MODULUS at *
  omega

theorem to_size_t_add {a b : Nat} (h : a + b < SIZE_MODULUS) :
    to_size_t ((a : Int) + (b : Int)) = a + b := by
  unfold to_size_t
  unfold SIZE_MODULUS at *
  omega

theorem to_ssize_t_lt {n : Nat} (h : n < 9223372036854775808) : to_ssize_t n = (n : Int) := by
  unfold to_ssize_t
  unfold SIZE_MODULUS
  have h1 : n % 18446744073709551616 = n := Nat.mod_eq_of_lt (by omega)
  rw [h1, if_pos h]

/-! ## The record of calls -/

theorem dispatched_append (l1 l2 : List Effect) :
    dispatched (l1 ++ l2) = dispatched l1 ++ dispatched l2 := by
  induction l1 with
  | nil => rfl
  | cons e rest ih => cases e <;> simp [dispatched, ih]

theorem notifications_append (l1 l2 : List Effect) :
    notifications (l1 ++ l2) = notifications l1 + notifications l2 := by
  induction l1 with
  | nil => simp [notifications]
  | cons e rest ih =>
      cases e <;> simp [notifications, ih]
      omega

theorem decode_attempts_append (l1 l2 : List Effect) :
    decode_attempts (l1 ++ l2) = decode_attempts l1 + decode_attempts l2 := by
  induction l1 with
  | nil => simp [decode_attempts]
  | cons e rest ih =>
      cases e <;> simp [decode_attempts, ih]
      omega

theorem reads_append (l1 l2 : List Effect) :
    reads (l1 ++ l2) = reads l1 + reads l2 := by
  induction l1 with
  | nil => simp [reads]
  | cons e rest ih =>
      cases e <;> simp [reads, ih]
      omega

/-! ## `process_event` -/

theorem process_event_clipboard (cfg : Config) (w : World) (e : device_event)
    (h : e.type = cfg.DEVICE_EVENT_TYPE_CLIPBOARD) :
    process_event cfg w e =
      { receiver := { w.receiver with
          clipboard_text := SDL_strdup cfg (w.log ++ [.process_event e]) e.text },
        log := w.log ++ [.process_event e, .SDL_PushEvent] } := by
  simp [process_event, h, World.emit]

theorem process_event_other (cfg : Config) (w : World) (e : device_event)
    (h : e.type ≠ cfg.DEVICE_EVENT_TYPE_CLIPBOARD) :
    process_event cfg w e = { receiver := w.receiver, log := w.log ++ [.process_event e] } := by
  simp [process_event, h, World.emit]

theorem process_event_dispatched (cfg : Config) (w : World) (e : device_event) :
    dispatched (process_event cfg w e).log = dispatched w.log ++ [e] := by
  by_cases h : e.type = cfg.DEVICE_EVENT_TYPE_CLIPBOARD
  · rw [process_event_clipboard cfg w e h]
    simp [dispatched_append, dispatched]
  · rw [process_event_other cfg w e h]
    simp [dispatched_append, dispatched]

theorem process_event_notifications (cfg : Config) (w : World) (e : device_event) :
    notifications (process_event cfg w e).log =
      notifications w.log + (if e.type = cfg.DEVICE_EVENT_TYPE_CLIPBOARD then 1 else 0) := by
  by_cases h : e.type = cfg.DEVICE_EVENT_TYPE_CLIPBOARD
  · rw [process_event_clipboard cfg w e h]
    simp [notifications_append, notifications, h]
  · rw [process_event_other cfg w e h]
    simp [notifications_append, notifications, h]

theorem process_event_decode_attempts (cfg : Config) (w : World) (e : device_event) :
    decode_attempts (process_event cfg w e).log = decode_attempts w.log := by
  by_cases h : e.type = cfg.DEVICE_EVENT_TYPE_CLIPBOARD
  · rw [process_event_clipboard cfg w e h]
    simp [decode_attempts_append, decode_attempts]
  · rw [process_event_other cfg w e h]
    simp [decode_attempts_append, decode_attempts]

theorem process_event_reads (cfg : Config) (w : World) (e : device_event) :
    reads (process_event cfg w e).log = reads w.log := by
  by_cases h : e.type = cfg.DEVICE_EVENT_TYPE_CLIPBOARD
  · rw [process_event_clipboard cfg w e h]
    simp [reads_append, reads]
  · rw [process_event_other cfg w e h]
    simp [reads_append, reads]

/-! ## One turn of `process_events` -/

theorem process_events_turn_error (cfg : Config) (dec : Deserializer) (buf : List Nat)
    (len head : Nat) (w : World)
    (h : (dec (window buf head (to_size_t ((len : Int) - (head : Int))))).1 = -1) :
    process_events_turn cfg dec buf len head w =
      .ret (-1) (w.emit (.deserialize head (to_size_t ((len : Int) - (head : Int))) (-1))) := by
  unfold process_events_turn
  simp only []
  rw [h]
  simp

theorem process_events_turn_incomplete (cfg : Config) (dec : Deserializer) (buf : List Nat)
    (len head : Nat) (w : World)
    (h : (dec (window buf head (to_size_t ((len : Int) - (head : Int))))).1 = 0) :
    process_events_turn cfg dec buf len head w =
      .ret (to_ssize_t head)
        (w.emit (.deserialize head (to_size_t ((len : Int) - (head : Int))) 0)) := by
  unfold process_events_turn
  simp only []
  rw [h]
  simp

theorem process_events_turn_frame (cfg : Config) (dec : Deserializer) (buf : List Nat)
    (len head c : Nat) (e : device_event) (w : World)
    (hlen : len < 9223372036854775808) (hc : 1 ≤ c) (hin : head + c ≤ len)
    (h : dec (window buf head (len - head)) = ((c : Int), e)) :
    process_events_turn cfg dec buf len head w =
      if head + c = len then
        .ret ((head + c : Nat) : Int)
          (process_event cfg (w.emit (.deserialize head (len - head) (c : Int))) e)
      else
        .next (head + c)
          (process_event cfg (w.emit (.deserialize head (len - head) (c : Int))) e) := by
  have hM : len < SIZE_MODULUS := by unfold SIZE_MODULUS; omega
  have h1 : to_size_t ((len : Int) - (head : Int)) = len - head :=
    to_size_t_sub (by omega) hM
  have h2 : to_size_t ((head : Int) + (c : Int)) = head + c :=
    to_size_t_add (by omega)
  have h3 : to_ssize_t (head + c) = ((head + c : Nat) : Int) := to_ssize_t_lt (by omega)
  have hc1 : (c : Int) ≠ -1 := by omega
  have hc0 : (c : Int) ≠ 0 := by omega
  unfold process_events_turn
  simp only [h1, h, h2, h3, hc1, hc0, if_false, if_pos hin]

/-! ## The decode loop over complete frames -/

theorem Framed.size_le {dec : Deserializer} {buf : List Nat} {len : Nat} {last : Int} :
    ∀ (frames : List (Nat × device_event)) (head : Nat), head ≤ len →
      Framed dec buf len last head frames → head + frames_size frames ≤ len
  | [], head, hh, _ => by simpa [frames_size] using hh
  | f :: rest, head, _, hf => by
      obtain ⟨_, hin, _, hrest⟩ := hf
      have := Framed.size_le rest (head + f.1) hin hrest
      simp only [frames_size]
      omega

theorem Framed.size_pos {dec : Deserializer} {buf : List Nat} {len : Nat} {last : Int}
    {frames : List (Nat × device_event)} {head : Nat}
    (hf : Framed dec buf len last head frames) (hne : frames ≠ []) :
    1 ≤ frames_size frames := by
  cases frames with
  | nil => exact absurd rfl hne
  | cons f rest =>
      obtain ⟨hc, _, _, _⟩ := hf
      simp only [frames_size]
      omega

theorem Framed.tail {dec : Deserializer} {buf : List Nat} {len : Nat} {last : Int} :
    ∀ (frames : List (Nat × device_event)) (head : Nat),
      Framed dec buf len last head frames →
      Framed dec buf len last (head + frames_size frames) []
  | [], head, hf => by simpa [frames_size] using hf
  | f :: rest, head, hf => by
      have := Framed.tail rest (head + f.1) hf.2.2.2
      simpa [frames_size, Nat.add_assoc] using this

/-- While the frames do not fill the window, the loop decodes and dispatches
them one by one and goes on at the offset after them. -/
theorem process_events_loop_frames (cfg : Config) (dec : Deserializer) (buf : List Nat)
    (len : Nat) (last : Int) (hlen : len < 9223372036854775808) :
    ∀ (frames : List (Nat × device_event)) (head : Nat) (w : World) (n : Nat),
      Framed dec buf len last head frames →
      head + frames_size frames < len →
      process_events_loop cfg dec buf len (frames.length + n) head w =
        process_events_loop cfg dec buf len n (head + frames_size frames)
          (after_frames cfg len head frames w)
  | [], head, w, n, _, _ => by simp [frames_size, after_frames]
  | f :: rest, head, w, n, hf, hlt => by
      obtain ⟨hc, hin, hdec, hrest⟩ := hf
      have hle := Framed.size_le rest (head + f.1) hin hrest
      simp only [frames_size] at hlt
      have hne : head + f.1 ≠ len := by omega
      have hturn := process_events_turn_frame cfg dec buf len head f.1 f.2 w hlen hc hin hdec
      rw [if_neg hne] at hturn
      have hfuel : (f :: rest).length + n = (rest.length + n) + 1 := by
        simp only [List.length_cons]; omega
      rw [hfuel]
      simp only [process_events_loop, hturn]
      rw [process_events_loop_frames cfg dec buf len last hlen rest (head + f.1) _ n hrest
        (by omega)]
      simp only [frames_size, after_frames, Nat.add_assoc]

/-- When the frames fill the window exactly, the loop returns at the last of
them without a further decode attempt. -/
theorem process_events_loop_frames_full (cfg : Config) (dec : Deserializer) (buf : List Nat)
    (len : Nat) (last : Int) (hlen : len < 9223372036854775808) :
    ∀ (frames : List (Nat × device_event)) (head : Nat) (w : World) (n : Nat),
      Framed dec buf len last head frames → frames ≠ [] →
      head + frames_size frames = len →
      process_events_loop cfg dec buf len (frames.length + n) head w =
        some ((len : Int), after_frames cfg len head frames w)
  | [], _, _, _, _, hne, _ => absurd rfl hne
  | f :: rest, head, w, n, hf, _, heq => by
      obtain ⟨hc, hin, hdec, hrest⟩ := hf
      have hturn := process_events_turn_frame cfg dec buf len head f.1 f.2 w hlen hc hin hdec
      have hfuel : (f :: rest).length + n = (rest.length + n) + 1 := by
        simp only [List.length_cons]; omega
      rw [hfuel]
      simp only [frames_size] at heq
      by_cases hr : rest = []
      · subst hr
        simp only [frames_size, Nat.add_zero] at heq
        rw [if_pos heq] at hturn
        simp only [process_events_loop, hturn, after_frames, heq]
      · have hpos := Framed.size_pos hrest hr
        have hne : head + f.1 ≠ len := by omega
        rw [if_neg hne] at hturn
        simp only [process_events_loop, hturn]
        rw [process_events_loop_frames_full cfg dec buf len last hlen rest (head + f.1) _ n
          hrest hr (by omega)]
        simp only [after_frames]

theorem after_frames_dispatched (cfg : Config) (len : Nat) :
    ∀ (frames : List (Nat × device_event)) (head : Nat) (w : World),
      dispatched (after_frames cfg len head frames w).log =
        dispatched w.log ++ frames.map Prod.snd
  | [], _, _ => by simp [after_frames]
  | f :: rest, head, w => by
      simp only [after_frames]
      rw [after_frames_dispatched cfg len rest, process_event_dispatched]
      simp [World.emit, dispatched_append, dispatched]

theorem after_frames_notifications (cfg : Config) (len : Nat) :
    ∀ (frames : List (Nat × device_event)) (head : Nat) (w : World),
      notifications (after_frames cfg len head frames w).log =
        notifications w.log + clipboard_count cfg frames
  | [], _, _ => by simp [after_frames, clipboard_count]
  | f :: rest, head, w => by
      simp only [after_frames]
      rw [after_frames_notifications cfg len rest, process_event_notifications]
      simp only [World.emit, notifications_append, notifications, clipboard_count]
      omega

theorem after_frames_decode_attempts (cfg : Config) (len : Nat) :
    ∀ (frames : List (Nat × device_event)) (head : Nat) (w : World),
      decode_attempts (after_frames cfg len head frames w).log =
        decode_attempts w.log + frames.length
  | [], _, _ => by simp [after_frames]
  | f :: rest, head, w => by
      simp only [after_frames]
      rw [after_frames_decode_attempts cfg len rest, process_event_decode_attempts]
      simp only [World.emit, decode_attempts_append, decode_attempts, List.length_cons]
      omega

theorem after_frames_reads (cfg : Config) (len : Nat) :
    ∀ (frames : List (Nat × device_event)) (head : Nat) (w : World),
      reads (after_frames cfg len head frames w).log = reads w.log
  | [], _, _ => by simp [after_frames]
  | f :: rest, head, w => by
      simp only [after_frames]
      rw [after_frames_reads cfg len rest, process_event_reads]
      simp only [World.emit, reads_append, reads]
      omega

theorem clipboard_count_all (cfg : Config) :
    ∀ (frames : List (Nat × device_event)),
      (∀ f ∈ frames, f.2.type = cfg.DEVICE_EVENT_TYPE_CLIPBOARD) →
      clipboard_count cfg frames = frames.length
  | [], _ => rfl
  | f :: rest, h => by
      have h1 : f.2.type = cfg.DEVICE_EVENT_TYPE_CLIPBOARD := h f (List.mem_cons_self _ _)
      have h2 := clipboard_count_all cfg rest (fun g hg => h g (List.mem_cons_of_mem _ hg))
      simp only [clipboard_count, h1, if_true, h2, List.length_cons]
      omega

/-- The decode loop over a window of complete frames followed by bytes on
which the decoder answers `0`. -/
theorem process_events_framed (cfg : Config) (dec : Deserializer) (buf : List Nat)
    (len : Nat) (frames : List (Nat × device_event)) (w : World) (fuel : Nat)
    (hlen : len < 9223372036854775808) (hf : Framed dec buf len 0 0 frames)
    (hfuel : frames.length < fuel) :
    ∃ w1, process_events cfg dec fuel w buf len = some ((frames_size frames : Int), w1) ∧
      dispatched w1.log = dispatched w.log ++ frames.map Prod.snd ∧
      notifications w1.log = notifications w.log + clipboard_count cfg frames ∧
      ((∀ f ∈ frames, f.2.type = cfg.DEVICE_EVENT_TYPE_CLIPBOARD) →
        notifications w1.log = notifications w.log + frames.length) ∧
      decode_attempts w1.log ≤ decode_attempts w.log + frames.length + 1 ∧
      reads w1.log = reads w.log := by
  have hle := Framed.size_le frames 0 (Nat.zero_le _) hf
  simp only [Nat.zero_add] at hle
  obtain ⟨n, hn⟩ : ∃ n, fuel = frames.length + (n + 1) := ⟨fuel - frames.length - 1, by omega⟩
  subst hn
  by_cases hfull : frames ≠ [] ∧ frames_size frames = len
  · refine ⟨after_frames cfg len 0 frames w, ?_, ?_, ?_, ?_, ?_, ?_⟩
    · unfold process_events
      rw [process_events_loop_frames_full cfg dec buf len 0 hlen frames 0 w (n + 1) hf hfull.1
        (by omega), hfull.2]
    · exact after_frames_dispatched cfg len frames 0 w
    · exact after_frames_notifications cfg len frames 0 w
    · intro hall
      rw [after_frames_notifications, clipboard_count_all cfg frames hall]
    · rw [after_frames_decode_attempts]; omega
    · exact after_frames_reads cfg len frames 0 w
  · have hend := Framed.tail frames 0 hf
    simp only [Nat.zero_add, Framed] at hend
    have hM : len < SIZE_MODULUS := by unfold SIZE_MODULUS; omega
    have hsub : to_size_t ((len : Int) - ((frames_size frames : Nat) : Int)) =
        len - frames_size frames := to_size_t_sub hle hM
    have hturn := process_events_turn_incomplete cfg dec buf len (frames_size frames)
      (after_frames cfg len 0 frames w) (by rw [hsub]; exact hend)
    rw [to_ssize_t_lt (by omega)] at hturn
    have hloop : process_events_loop cfg dec buf len (frames.length + (n + 1)) 0 w =
        process_events_loop cfg dec buf len (n + 1) (0 + frames_size frames)
          (after_frames cfg len 0 frames w) := by
      by_cases hnil : frames = []
      · subst hnil
        simp [frames_size, after_frames]
      · have : frames_size frames ≠ len := fun h => hfull ⟨hnil, h⟩
        exact process_events_loop_frames cfg dec buf len 0 hlen frames 0 w (n + 1) hf (by omega)
    refine ⟨(after_frames cfg len 0 frames w).emit
      (.deserialize (frames_size frames)
        (to_size_t ((len : Int) - ((frames_size frames : Nat) : Int))) 0), ?_, ?_, ?_, ?_, ?_, ?_⟩
    · unfold process_events
      rw [hloop, Nat.zero_add]
      simp only [process_events_loop, hturn]
    · simp [World.emit, dispatched_append, dispatched, after_frames_dispatched]
    · simp [World.emit, notifications_append, notifications, after_frames_notifications]
    · intro hall
      simp [World.emit, notifications_append, notifications, after_frames_notifications,
        clipboard_count_all cfg frames hall]
    · simp [World.emit, decode_attempts_append, decode_attempts, after_frames_decode_attempts]
    · simp [World.emit, reads_append, reads, after_frames_reads]

/-! ## One turn of `run_receiver` -/

theorem blit_zero (buf bytes : List Nat) : blit buf 0 bytes = bytes ++ buf.drop bytes.length := by
  simp [blit]

theorem blit_zero_length (buf bytes : List Nat) (h : bytes.length ≤ buf.length) :
    (blit buf 0 bytes).length = buf.length := by
  rw [blit_zero, List.length_append, List.length_drop]
  omega

theorem window_append_left (a rest : List Nat) : window (a ++ rest) 0 a.length = a := by
  simp [window]

theorem window_append_mid (a b rest : List Nat) :
    window (a ++ b ++ rest) a.length b.length = b := by
  simp [window, List.append_assoc]

theorem run_receiver_turn_error (cfg : Config) (dec : Deserializer) (fuel : Nat)
    (rr : recv_result) (s : run_state) (h : rr.ret = -1) :
    run_receiver_turn cfg dec fuel rr s =
      some (.brk { buf := blit s.buf 0 rr.bytes, head := s.head,
                   world := s.world.emit (.net_recv (requested cfg s.head) (-1)) }) := by
  simp [run_receiver_turn, net_recv, h]

theorem run_receiver_turn_pass (cfg : Config) (dec : Deserializer) (fuel : Nat)
    (rr : recv_result) (s : run_state) (h : rr.ret ≠ -1) (v : Int) (w1 : World)
    (hp : process_events cfg dec fuel (world_after_read cfg rr s) (blit s.buf 0 rr.bytes)
      (to_size_t rr.ret) = some (v, w1)) :
    run_receiver_turn cfg dec fuel rr s =
      if v = -1 then some (.brk { buf := blit s.buf 0 rr.bytes, head := s.head, world := w1 })
      else if v ≠ 0 then
        some (.cont { buf := blit (blit s.buf 0 rr.bytes) 0
                        (window (blit s.buf 0 rr.bytes) v.toNat (to_size_t (rr.ret - v))),
                      head := to_size_t (rr.ret - v), world := w1 })
      else some (.cont { buf := blit s.buf 0 rr.bytes, head := s.head, world := w1 }) := by
  unfold world_after_read at hp
  simp only [] at hp
  simp only [run_receiver_turn, net_recv, h, if_false, hp]

theorem run_receiver_turn_stuck (cfg : Config) (dec : Deserializer) (fuel : Nat)
    (rr : recv_result) (s : run_state) (h : rr.ret ≠ -1)
    (hp : process_events cfg dec fuel (world_after_read cfg rr s) (blit s.buf 0 rr.bytes)
      (to_size_t rr.ret) = none) :
    run_receiver_turn cfg dec fuel rr s = none := by
  unfold world_after_read at hp
  simp only [] at hp
  simp only [run_receiver_turn, net_recv, h, if_false, hp]

/-! ## The decode loop with a bounded decoder -/

theorem window_length_le (buf : List Nat) (off len : Nat) : (window buf off len).length ≤ len := by
  simp [window, List.length_take]

/-- One turn of `process_events` with a bounded decoder: it returns `-1`, or
returns `head`, or has decoded `c ≥ 1` bytes within the window and returns or
goes on at `head + c`. -/
theorem process_events_turn_bounded (cfg : Config) (dec : Deserializer) (buf : List Nat)
    (len head : Nat) (w : World) (hdec : dec.bounded) (hlen : len < 9223372036854775808)
    (hh : head ≤ len) :
    (∃ w1, process_events_turn cfg dec buf len head w = .ret (-1) w1) ∨
    (∃ w1, process_events_turn cfg dec buf len head w = .ret (head : Int) w1) ∨
    (∃ c w1, 1 ≤ c ∧ head + c ≤ len ∧
      process_events_turn cfg dec buf len head w =
        if head + c = len then .ret ((head + c : Nat) : Int) w1 else .next (head + c) w1) := by
  have hM : len < SIZE_MODULUS := by unfold SIZE_MODULUS; omega
  have hsub : to_size_t ((len : Int) - (head : Int)) = len - head := to_size_t_sub hh hM
  have hwl := window_length_le buf head (len - head)
  rcases hdec (window buf head (len - head)) with h1 | ⟨h0, hle⟩
  · left
    exact ⟨_, process_events_turn_error cfg dec buf len head w (by rw [hsub]; exact h1)⟩
  · by_cases hz : (dec (window buf head (len - head))).1 = 0
    · right; left
      have := process_events_turn_incomplete cfg dec buf len head w (by rw [hsub]; exact hz)
      rw [to_ssize_t_lt (by omega)] at this
      exact ⟨_, this⟩
    · right; right
      have hc : 1 ≤ (dec (window buf head (len - head))).1.toNat := by omega
      have hin : head + (dec (window buf head (len - head))).1.toNat ≤ len := by omega
      exact ⟨_, _, hc, hin, process_events_turn_frame cfg dec buf len head _
        (dec (window buf head (len - head))).2 w hlen hc hin
        (by rw [Int.toNat_of_nonneg h0])⟩

/-- With a bounded decoder, what `process_events` returns from `head` on is
`-1` or lies between `head` and `len`. -/
theorem process_events_loop_bounded (cfg : Config) (dec : Deserializer) (buf : List Nat)
    (len : Nat) (hdec : dec.bounded) (hlen : len < 9223372036854775808) :
    ∀ (fuel head : Nat) (w : World) (v : Int) (w1 : World), head ≤ len →
      process_events_loop cfg dec buf len fuel head w = some (v, w1) →
      v = -1 ∨ ((head : Int) ≤ v ∧ v ≤ (len : Int))
  | 0, _, _, _, _, _, h => by simp [process_events_loop] at h
  | fuel + 1, head, w, v, w1, hh, h => by
      simp only [process_events_loop] at h
      rcases process_events_turn_bounded cfg dec buf len head w hdec hlen hh with
        ⟨w2, ht⟩ | ⟨w2, ht⟩ | ⟨c, w2, hc, hin, ht⟩
      · rw [ht] at h
        simp only [Option.some.injEq, Prod.mk.injEq] at h
        left; exact h.1.symm
      · rw [ht] at h
        simp only [Option.some.injEq, Prod.mk.injEq] at h
        right; omega
      · rw [ht] at h
        by_cases he : head + c = len
        · rw [if_pos he] at h
          simp only [Option.some.injEq, Prod.mk.injEq] at h
          right; omega
        · rw [if_neg he] at h
          simp only [] at h
          rcases process_events_loop_bounded cfg dec buf len hdec hlen fuel (head + c) w2 v w1
            hin h with h1 | h2
          · left; exact h1
          · right; omega

/-- With a bounded decoder, `len - head + 1` turns are enough for
`process_events` to return. -/
theorem process_events_loop_returns (cfg : Config) (dec : Deserializer) (buf : List Nat)
    (len : Nat) (hdec : dec.bounded) (hlen : len < 9223372036854775808) :
    ∀ (fuel head : Nat) (w : World), head ≤ len → len - head < fuel →
      ∃ v w1, process_events_loop cfg dec buf len fuel head w = some (v, w1)
  | 0, _, _, _, h => by omega
  | fuel + 1, head, w, hh, hf => by
      simp only [process_events_loop]
      rcases process_events_turn_bounded cfg dec buf len head w hdec hlen hh with
        ⟨w2, ht⟩ | ⟨w2, ht⟩ | ⟨c, w2, hc, hin, ht⟩
      · rw [ht]; exact ⟨_, _, rfl⟩
      · rw [ht]; exact ⟨_, _, rfl⟩
      · rw [ht]
        by_cases he : head + c = len
        · rw [if_pos he]; exact ⟨_, _, rfl⟩
        · rw [if_neg he]
          exact process_events_loop_returns cfg dec buf len hdec hlen fuel (head + c) w2 hin
            (by omega)

/-! ## Offsets reached during a pass -/

/-- What the loop returns from an offset reached during a pass is what the
pass returns. -/
theorem Reached.loop_eq {cfg : Config} {dec : Deserializer} {buf : List Nat} {len : Nat}
    {w0 : World} {head : Nat} {w : World} (hr : Reached cfg dec buf len w0 head w) :
    ∀ (res : Int × World),
      (∃ n, ∀ fuel, n ≤ fuel → process_events_loop cfg dec buf len fuel head w = some res) →
      ∃ n, ∀ fuel, n ≤ fuel → process_events_loop cfg dec buf len fuel 0 w0 = some res := by
  induction hr with
  | start => intro res h; exact h
  | step _ hturn ih =>
      intro res h
      obtain ⟨n, hn⟩ := h
      apply ih
      refine ⟨n + 1, fun fuel hf => ?_⟩
      obtain ⟨m, rfl⟩ : ∃ m, fuel = m + 1 := ⟨fuel - 1, by omega⟩
      simp only [process_events_loop, hturn]
      exact hn m (by omega)

/-- A decode error at an offset reached during a pass makes the pass return
`-1` right after that attempt. -/
theorem process_events_error_at (cfg : Config) (dec : Deserializer) (buf : List Nat)
    (len : Nat) (w0 : World) (head : Nat) (w : World)
    (hr : Reached cfg dec buf len w0 head w)
    (herr : (dec (window buf head (to_size_t ((len : Int) - (head : Int))))).1 = -1) :
    ∃ n, ∀ fuel, n ≤ fuel →
      process_events cfg dec fuel w0 buf len =
        some (-1, w.emit (.deserialize head (to_size_t ((len : Int) - (head : Int))) (-1))) := by
  apply hr.loop_eq
  refine ⟨1, fun fuel hf => ?_⟩
  obtain ⟨m, rfl⟩ : ∃ m, fuel = m + 1 := ⟨fuel - 1, by omega⟩
  simp only [process_events_loop, process_events_turn_error cfg dec buf len head w herr]

/-! ## The frame decoder of the spec -/

theorem device_event_deserialize_bounded (cfg : Config) :
    (device_event_deserialize cfg).bounded := by
  intro x
  rcases x with _ | ⟨tag, _ | ⟨b3, _ | ⟨b2, _ | ⟨b1, _ | ⟨b0, payload⟩⟩⟩⟩⟩ <;>
    simp only [device_event_deserialize] <;> (try split_ifs) <;> simp <;> omega

/-! ## A turn of `run_receiver` with a single decode attempt -/

theorem window_blit_zero (buf bytes : List Nat) :
    window (blit buf 0 bytes) 0 bytes.length = bytes := by
  rw [blit_zero, window_append_left]

/-- When the decoder answers `0` on the bytes just read, the turn goes round
again with `head` as it was: the bytes read are in `buf[0..r)`. -/
theorem run_receiver_turn_incomplete (cfg : Config) (dec : Deserializer) (fuel : Nat)
    (s : run_state) (rr : recv_result) (hret : rr.ret = (rr.bytes.length : Int))
    (hlen : rr.bytes.length < 9223372036854775808) (hd : (dec rr.bytes).1 = 0) :
    run_receiver_turn cfg dec (fuel + 1) rr s =
      some (.cont (run_state.mk (blit s.buf 0 rr.bytes) s.head
        ((world_after_read cfg rr s).emit (.deserialize 0 rr.bytes.length 0)))) := by
  have hM : rr.bytes.length < SIZE_MODULUS := by unfold SIZE_MODULUS; omega
  have hl : to_size_t rr.ret = rr.bytes.length := by rw [hret]; exact to_size_t_natCast hM
  have hs : to_size_t ((rr.bytes.length : Int) - ((0 : Nat) : Int)) = rr.bytes.length := by
    rw [to_size_t_sub (Nat.zero_le _) hM]; rfl
  have hturn := process_events_turn_incomplete cfg dec (blit s.buf 0 rr.bytes) rr.bytes.length 0
    (world_after_read cfg rr s) (by rw [hs, window_blit_zero]; exact hd)
  rw [hs] at hturn
  have hp : process_events cfg dec (fuel + 1) (world_after_read cfg rr s)
      (blit s.buf 0 rr.bytes) (to_size_t rr.ret) =
        some (0, (world_after_read cfg rr s).emit (.deserialize 0 rr.bytes.length 0)) := by
    rw [hl]
    simp only [process_events, process_events_loop, hturn]
    rfl
  have := run_receiver_turn_pass cfg dec (fuel + 1) rr s (by rw [hret]; omega) 0 _ hp
  simpa using this

/-- When the decoder answers `-1` on the bytes just read, the turn leaves the loop. -/
theorem run_receiver_turn_decode_error (cfg : Config) (dec : Deserializer) (fuel : Nat)
    (s : run_state) (rr : recv_result) (hret : rr.ret = (rr.bytes.length : Int))
    (hlen : rr.bytes.length < 9223372036854775808) (hd : (dec rr.bytes).1 = -1) :
    run_receiver_turn cfg dec (fuel + 1) rr s =
      some (.brk (run_state.mk (blit s.buf 0 rr.bytes) s.head
        ((world_after_read cfg rr s).emit (.deserialize 0 rr.bytes.length (-1))))) := by
  have hM : rr.bytes.length < SIZE_MODULUS := by unfold SIZE_MODULUS; omega
  have hl : to_size_t rr.ret = rr.bytes.length := by rw [hret]; exact to_size_t_natCast hM
  have hs : to_size_t ((rr.bytes.length : Int) - ((0 : Nat) : Int)) = rr.bytes.length := by
    rw [to_size_t_sub (Nat.zero_le _) hM]; rfl
  have hturn := process_events_turn_error cfg dec (blit s.buf 0 rr.bytes) rr.bytes.length 0
    (world_after_read cfg rr s) (by rw [hs, window_blit_zero]; exact hd)
  rw [hs] at hturn
  have hp : process_events cfg dec (fuel + 1) (world_after_read cfg rr s)
      (blit s.buf 0 rr.bytes) (to_size_t rr.ret) =
        some (-1, (world_after_read cfg rr s).emit (.deserialize 0 rr.bytes.length (-1))) := by
    rw [hl]
    simp only [process_events, process_events_loop, hturn]
  have := run_receiver_turn_pass cfg dec (fuel + 1) rr s (by rw [hret]; omega) (-1) _ hp
  simpa using this

/-! ## Assertions and decode attempts of a pass -/

theorem assertion_failures_append (l1 l2 : List Effect) :
    assertion_failures (l1 ++ l2) = assertion_failures l1 + assertion_failures l2 := by
  induction l1 with
  | nil => simp [assertion_failures]
  | cons e rest ih =>
      cases e <;> simp [assertion_failures, ih]
      omega

theorem process_event_assertion_failures (cfg : Config) (w : World) (e : device_event) :
    assertion_failures (process_event cfg w e).log = assertion_failures w.log := by
  by_cases h : e.type = cfg.DEVICE_EVENT_TYPE_CLIPBOARD
  · rw [process_event_clipboard cfg w e h]
    simp [assertion_failures_append, assertion_failures]
  · rw [process_event_other cfg w e h]
    simp [assertion_failures_append, assertion_failures]

theorem process_event_receiver (cfg : Config) (w : World) (e : device_event) :
    (process_event cfg w e).receiver =
      if e.type = cfg.DEVICE_EVENT_TYPE_CLIPBOARD then
        { w.receiver with
          clipboard_text := SDL_strdup cfg (w.log ++ [.process_event e]) e.text }
      else w.receiver := by
  by_cases h : e.type = cfg.DEVICE_EVENT_TYPE_CLIPBOARD
  · rw [process_event_clipboard cfg w e h, if_pos h]
  · rw [process_event_other cfg w e h, if_neg h]

/-- One turn of `process_events` with a bounded decoder makes one decode
attempt and meets its assertion. -/
theorem process_events_turn_bounded_log (cfg : Config) (dec : Deserializer) (buf : List Nat)
    (len head : Nat) (w : World) (hdec : dec.bounded) (hlen : len < 9223372036854775808)
    (hh : head ≤ len) :
    assertion_failures (process_events_turn cfg dec buf len head w).world.log =
        assertion_failures w.log ∧
      decode_attempts (process_events_turn cfg dec buf len head w).world.log =
        decode_attempts w.log + 1 := by
  have hM : len < SIZE_MODULUS := by unfold SIZE_MODULUS; omega
  have hsub : to_size_t ((len : Int) - (head : Int)) = len - head := to_size_t_sub hh hM
  have hwl := window_length_le buf head (len - head)
  rcases hdec (window buf head (len - head)) with h1 | ⟨h0, hle⟩
  · rw [process_events_turn_error cfg dec buf len head w (by rw [hsub]; exact h1)]
    simp [Turn.world, World.emit, assertion_failures_append, assertion_failures,
      decode_attempts_append, decode_attempts]
  · by_cases hz : (dec (window buf head (len - head))).1 = 0
    · rw [process_events_turn_incomplete cfg dec buf len head w (by rw [hsub]; exact hz)]
      simp [Turn.world, World.emit, assertion_failures_append, assertion_failures,
        decode_attempts_append, decode_attempts]
    · have hc : 1 ≤ (dec (window buf head (len - head))).1.toNat := by omega
      have hin : head + (dec (window buf head (len - head))).1.toNat ≤ len := by omega
      rw [process_events_turn_frame cfg dec buf len head _
        (dec (window buf head (len - head))).2 w hlen hc hin
        (by rw [Int.toNat_of_nonneg h0])]
      split_ifs <;>
        simp [Turn.world, World.emit, assertion_failures_append, assertion_failures,
          decode_attempts_append, decode_attempts, process_event_assertion_failures,
          process_event_decode_attempts]

/-- With a bounded decoder no assertion of a pass fails. -/
theorem process_events_loop_asserts (cfg : Config) (dec : Deserializer) (buf : List Nat)
    (len : Nat) (hdec : dec.bounded) (hlen : len < 9223372036854775808) :
    ∀ (fuel head : Nat) (w : World) (v : Int) (w1 : World), head ≤ len →
      process_events_loop cfg dec buf len fuel head w = some (v, w1) →
      assertion_failures w1.log = assertion_failures w.log
  | 0, _, _, _, _, _, h => by simp [process_events_loop] at h
  | fuel + 1, head, w, v, w1, hh, h => by
      simp only [process_events_loop] at h
      have hlog := (process_events_turn_bounded_log cfg dec buf len head w hdec hlen hh).1
      rcases process_events_turn_bounded cfg dec buf len head w hdec hlen hh with
        ⟨w2, ht⟩ | ⟨w2, ht⟩ | ⟨c, w2, hc, hin, ht⟩
      · rw [ht] at h hlog
        simp only [Option.some.injEq, Prod.mk.injEq] at h
        rw [← h.2]; exact hlog
      · rw [ht] at h hlog
        simp only [Option.some.injEq, Prod.mk.injEq] at h
        rw [← h.2]; exact hlog
      · rw [ht] at h hlog
        by_cases he : head + c = len
        · rw [if_pos he] at h hlog
          simp only [Option.some.injEq, Prod.mk.injEq] at h
          rw [← h.2]; exact hlog
        · rw [if_neg he] at h hlog
          simp only [] at h
          rw [process_events_loop_asserts cfg dec buf len hdec hlen fuel (head + c) w2 v w1
            hin h]
          exact hlog

/-- With a bounded decoder a pass from `head` on returns within
`max (len - head) 1` turns and makes at most that many decode attempts. -/
theorem process_events_loop_attempts (cfg : Config) (dec : Deserializer) (buf : List Nat)
    (len : Nat) (hdec : dec.bounded) (hlen : len < 9223372036854775808) :
    ∀ (fuel head : Nat) (w : World), head ≤ len → max (len - head) 1 ≤ fuel →
      ∃ v w1, process_events_loop cfg dec buf len fuel head w = some (v, w1) ∧
        decode_attempts w1.log ≤ decode_attempts w.log + max (len - head) 1
  | 0, _, _, _, h => by omega
  | fuel + 1, head, w, hh, hf => by
      simp only [process_events_loop]
      have hlog := (process_events_turn_bounded_log cfg dec buf len head w hdec hlen hh).2
      rcases process_events_turn_bounded cfg dec buf len head w hdec hlen hh with
        ⟨w2, ht⟩ | ⟨w2, ht⟩ | ⟨c, w2, hc, hin, ht⟩
      · rw [ht] at hlog ⊢
        exact ⟨_, _, rfl, by simp only [Turn.world] at hlog; omega⟩
      · rw [ht] at hlog ⊢
        exact ⟨_, _, rfl, by simp only [Turn.world] at hlog; omega⟩
      · rw [ht] at hlog ⊢
        by_cases he : head + c = len
        · rw [if_pos he] at hlog ⊢
          exact ⟨_, _, rfl, by simp only [Turn.world] at hlog; omega⟩
        · rw [if_neg he] at hlog ⊢
          simp only [Turn.world] at hlog
          obtain ⟨v, w1, hp, hn⟩ := process_events_loop_attempts cfg dec buf len hdec hlen fuel
            (head + c) w2 hin (by omega)
          exact ⟨v, w1, hp, by omega⟩

/-! ## What one decode attempt does to the mailbox -/

/-- A turn whose decode attempt returns neither `-1` nor `0` ends in the world
that `process_event` made after the recorded attempt, followed at most by the
record of a failed assertion. -/
theorem process_events_turn_decoded (cfg : Config) (dec : Deserializer) (buf : List Nat)
    (len head : Nat) (w : World)
    (h1 : (dec (decode_input buf len head)).1 ≠ -1)
    (h0 : (dec (decode_input buf len head)).1 ≠ 0) :
    (process_events_turn cfg dec buf len head w).world =
        process_event cfg
          (w.emit (.deserialize head (to_size_t ((len : Int) - (head : Int)))
            (dec (decode_input buf len head)).1))
          (dec (decode_input buf len head)).2 ∨
      (process_events_turn cfg dec buf len head w).world =
        (process_event cfg
          (w.emit (.deserialize head (to_size_t ((len : Int) - (head : Int)))
            (dec (decode_input buf len head)).1))
          (dec (decode_input buf len head)).2).emit .assert_failed := by
  unfold decode_input at h1 h0 ⊢
  rcases hd : dec (window buf head (to_size_t ((len : Int) - (head : Int)))) with ⟨r, e⟩
  rw [hd] at h1 h0
  simp only [] at h1 h0
  unfold process_events_turn
  simp only [hd, h1, h0, if_false]
  split_ifs <;> simp [Turn.world]

/-- The receiver, the notifications and the dispatched events at the end of a
turn whose decode attempt returns neither `-1` nor `0`. -/
theorem process_events_turn_decoded_effects (cfg : Config) (dec : Deserializer)
    (buf : List Nat) (len head : Nat) (w : World)
    (h1 : (dec (decode_input buf len head)).1 ≠ -1)
    (h0 : (dec (decode_input buf len head)).1 ≠ 0) :
    (process_events_turn cfg dec buf len head w).world.receiver =
        (process_event cfg
          (w.emit (.deserialize head (to_size_t ((len : Int) - (head : Int)))
            (dec (decode_input buf len head)).1))
          (dec (decode_input buf len head)).2).receiver ∧
      notifications (process_events_turn cfg dec buf len head w).world.log =
        notifications w.log +
          (if (dec (decode_input buf len head)).2.type = cfg.DEVICE_EVENT_TYPE_CLIPBOARD
            then 1 else 0) ∧
      dispatched (process_events_turn cfg dec buf len head w).world.log =
        dispatched w.log ++ [(dec (decode_input buf len head)).2] := by
  rcases process_events_turn_decoded cfg dec buf len head w h1 h0 with h | h <;>
    rw [h] <;>
    simp [World.emit, notifications_append, notifications, dispatched_append, dispatched,
      process_event_notifications, process_event_dispatched]

/-- A turn whose decode attempt returns `-1` or `0` returns at once and only
records the attempt. -/
theorem process_events_turn_not_decoded (cfg : Config) (dec : Deserializer) (buf : List Nat)
    (len head : Nat) (w : World)
    (h : (dec (decode_input buf len head)).1 = 0 ∨ (dec (decode_input buf len head)).1 = -1) :
    ∃ v, process_events_turn cfg dec buf len head w =
      .ret v (w.emit (.deserialize head (to_size_t ((len : Int) - (head : Int)))
        (dec (decode_input buf len head)).1)) := by
  unfold decode_input at h ⊢
  rcases h with h | h
  · rw [process_events_turn_incomplete cfg dec buf len head w h, h]
    exact ⟨_, rfl⟩
  · rw [process_events_turn_error cfg dec buf len head w h, h]
    exact ⟨_, rfl⟩

/-! ## The slot after a pass -/

theorem slot_after_append (cfg : Config) :
    ∀ (l1 : List Effect) (past : List Effect) (slot : Option (List Nat)) (l2 : List Effect),
      slot_after cfg past slot (l1 ++ l2) =
        slot_after cfg (past ++ l1) (slot_after cfg past slot l1) l2
  | [], past, slot, l2 => by simp [slot_after]
  | x :: rest, past, slot, l2 => by
      cases x <;>
        simp [slot_after, slot_after_append cfg rest, List.append_assoc]

theorem clipboard_events_append (cfg : Config) (l1 l2 : List device_event) :
    clipboard_events cfg (l1 ++ l2) = clipboard_events cfg l1 + clipboard_events cfg l2 := by
  simp [clipboard_events, List.filter_append]

/-- The slot after recorded calls is the slot before when no clipboard event
was dispatched among them; otherwise it is the text of the last clipboard event
dispatched, or `NULL` when its copy could not be allocated. -/
theorem slot_after_last (cfg : Config) :
    ∀ (new : List Effect) (past : List Effect) (slot : Option (List Nat)),
      (last_clipboard cfg (dispatched new) = none → slot_after cfg past slot new = slot) ∧
      (∀ e, last_clipboard cfg (dispatched new) = some e →
        (slot_after cfg past slot new = some e.text ∨ slot_after cfg past slot new = none) ∧
        ((∀ l t, cfg.strdup_allocates l t = true) →
          slot_after cfg past slot new = some e.text))
  | [], past, slot => by simp [slot_after, dispatched, last_clipboard]
  | x :: rest, past, slot => by
      cases x with
      | process_event e0 =>
          simp only [slot_after, dispatched, last_clipboard]
          have ih := slot_after_last cfg rest (past ++ [.process_event e0])
            (if e0.type = cfg.DEVICE_EVENT_TYPE_CLIPBOARD then
              SDL_strdup cfg (past ++ [.process_event e0]) e0.text
            else slot)
          cases hl : last_clipboard cfg (dispatched rest) with
          | some e1 =>
              simp only [reduceCtorEq, false_implies, Option.some.injEq, true_and]
              intro e he
              exact ih.2 e (by rw [hl, he])
          | none =>
              have hrest := ih.1 hl
              rw [hrest]
              by_cases hc : e0.type = cfg.DEVICE_EVENT_TYPE_CLIPBOARD
              · simp only [hc, if_true, reduceCtorEq, false_implies, Option.some.injEq,
                  true_and]
                intro e he
                subst he
                refine ⟨?_, ?_⟩
                · unfold SDL_strdup
                  split_ifs <;> simp
                · intro hall
                  simp [SDL_strdup, hall]
              · simp [hc]
      | net_recv a b =>
          simpa [slot_after, dispatched] using slot_after_last cfg rest (past ++ [.net_recv a b])
            slot
      | deserialize a b c =>
          simpa [slot_after, dispatched] using
            slot_after_last cfg rest (past ++ [.deserialize a b c]) slot
      | SDL_PushEvent =>
          simpa [slot_after, dispatched] using
            slot_after_last cfg rest (past ++ [.SDL_PushEvent]) slot
      | assert_failed =>
          simpa [slot_after, dispatched] using
            slot_after_last cfg rest (past ++ [.assert_failed]) slot

/-- What one turn of `process_events` records, for any decoder: the slot
follows the recorded calls, and one notification is posted for each clipboard
event dispatched. -/
theorem process_events_turn_events (cfg : Config) (dec : Deserializer) (buf : List Nat)
    (len head : Nat) (w : World) :
    ∃ new, (process_events_turn cfg dec buf len head w).world.log = w.log ++ new ∧
      (process_events_turn cfg dec buf len head w).world.receiver.clipboard_text =
        slot_after cfg w.log w.receiver.clipboard_text new ∧
      notifications new = clipboard_events cfg (dispatched new) := by
  by_cases h : (dec (decode_input buf len head)).1 = 0 ∨
      (dec (decode_input buf len head)).1 = -1
  · obtain ⟨v, hv⟩ := process_events_turn_not_decoded cfg dec buf len head w h
    refine ⟨[.deserialize head (to_size_t ((len : Int) - (head : Int)))
      (dec (decode_input buf len head)).1], ?_, ?_, ?_⟩ <;> (try rw [hv]) <;>
      simp [Turn.world, World.emit, slot_after, notifications, dispatched, clipboard_events]
  · have hw := process_events_turn_decoded cfg dec buf len head w
      (fun h1 => h (Or.inr h1)) (fun h0 => h (Or.inl h0))
    by_cases hc : (dec (decode_input buf len head)).2.type = cfg.DEVICE_EVENT_TYPE_CLIPBOARD
    · rw [process_event_clipboard cfg _ _ hc] at hw
      rcases hw with hw | hw
      · refine ⟨[.deserialize head (to_size_t ((len : Int) - (head : Int)))
          (dec (decode_input buf len head)).1, .process_event (dec (decode_input buf len head)).2,
          .SDL_PushEvent], ?_, ?_, ?_⟩ <;> (try rw [hw]) <;>
          simp [World.emit, slot_after, notifications, dispatched, clipboard_events, hc]
      · refine ⟨[.deserialize head (to_size_t ((len : Int) - (head : Int)))
          (dec (decode_input buf len head)).1, .process_event (dec (decode_input buf len head)).2,
          .SDL_PushEvent, .assert_failed], ?_, ?_, ?_⟩ <;> (try rw [hw]) <;>
          simp [World.emit, slot_after, notifications, dispatched, clipboard_events, hc]
    · rw [process_event_other cfg _ _ hc] at hw
      rcases hw with hw | hw
      · refine ⟨[.deserialize head (to_size_t ((len : Int) - (head : Int)))
          (dec (decode_input buf len head)).1,
          .process_event (dec (decode_input buf len head)).2], ?_, ?_, ?_⟩ <;> (try rw [hw]) <;>
          simp [World.emit, slot_after, notifications, dispatched, clipboard_events, hc]
      · refine ⟨[.deserialize head (to_size_t ((len : Int) - (head : Int)))
          (dec (decode_input buf len head)).1, .process_event (dec (decode_input buf len head)).2,
          .assert_failed], ?_, ?_, ?_⟩ <;> (try rw [hw]) <;>
          simp [World.emit, slot_after, notifications, dispatched, clipboard_events, hc]

/-- Whatever a pass returns, the slot follows the calls it recorded, and one
notification was posted for each clipboard event it dispatched. -/
theorem process_events_loop_events (cfg : Config) (dec : Deserializer) (buf : List Nat)
    (len : Nat) :
    ∀ (fuel head : Nat) (w : World) (v : Int) (w1 : World),
      process_events_loop cfg dec buf len fuel head w = some (v, w1) →
      ∃ new, w1.log = w.log ++ new ∧
        w1.receiver.clipboard_text = slot_after cfg w.log w.receiver.clipboard_text new ∧
        notifications new = clipboard_events cfg (dispatched new)
  | 0, _, _, _, _, h => by simp [process_events_loop] at h
  | fuel + 1, head, w, v, w1, h => by
      simp only [process_events_loop] at h
      obtain ⟨ev, hd, hs, hn⟩ := process_events_turn_events cfg dec buf len head w
      cases ht : process_events_turn cfg dec buf len head w with
      | ret v2 w2 =>
          rw [ht] at h hd hs
          simp only [Option.some.injEq, Prod.mk.injEq] at h
          simp only [Turn.world] at hd hs
          rw [← h.2]
          exact ⟨ev, hd, hs, hn⟩
      | next head2 w2 =>
          rw [ht] at h hd hs
          simp only [Turn.world] at h hd hs
          obtain ⟨ev2, hd2, hs2, hn2⟩ :=
            process_events_loop_events cfg dec buf len fuel head2 w2 v w1 h
          refine ⟨ev ++ ev2, ?_, ?_, ?_⟩
          · rw [hd2, hd, List.append_assoc]
          · rw [hs2, hs, hd, slot_after_append]
          · rw [notifications_append, dispatched_append, clipboard_events_append, hn, hn2]

/-! ## The frame decoder of the spec: what it returns -/

/-- The decoder of the spec returns a positive size only with a clipboard event. -/
theorem device_event_deserialize_clipboard (cfg : Config) (x : List Nat)
    (h : 0 < (device_event_deserialize cfg x).1) :
    (device_event_deserialize cfg x).2.type = cfg.DEVICE_EVENT_TYPE_CLIPBOARD := by
  revert h
  rcases x with _ | ⟨tag, _ | ⟨b3, _ | ⟨b2, _ | ⟨b1, _ | ⟨b0, payload⟩⟩⟩⟩⟩ <;>
    simp only [device_event_deserialize] <;> (try split_ifs) <;> simp_all

/-- The decoder of the spec returns `-1`, `0` or a positive size. -/
theorem device_event_deserialize_ret (cfg : Config) (x : List Nat) :
    (device_event_deserialize cfg x).1 = -1 ∨ 0 ≤ (device_event_deserialize cfg x).1 :=
  (device_event_deserialize_bounded cfg x).imp id And.left

/-! ## The mailbox on the heap and the mailbox by value -/

/-- The function `process_event` on the heap does to the string of the slot what
`process_event` does to the slot by value, when the copy can be allocated. -/
theorem heap_process_event_abstraction (cfg : Config) (h : Mem.Heap) (r : Mem.receiver)
    (e : device_event) (log : List Effect)
    (hal : cfg.strdup_allocates (log ++ [.process_event e]) e.text = true) :
    Mem.abstraction (Mem.process_event cfg h r e).1 (Mem.process_event cfg h r e).2 =
      (process_event cfg (World.mk (Mem.abstraction h r) log) e).receiver := by
  rw [process_event_receiver]
  by_cases hc : e.type = cfg.DEVICE_EVENT_TYPE_CLIPBOARD
  · simp [Mem.process_event, Mem.SDL_strdup, Mem.abstraction, Mem.Heap.read, hc, SDL_strdup,
      hal]
  · simp [Mem.process_event, Mem.abstraction, hc]

/-- Consume on the heap hands out the address of the string that consume by
value hands out. -/
theorem heap_consume_abstraction (h : Mem.Heap) (r : Mem.receiver) :
    receiver_consume_device_clipboard (Mem.abstraction h r) =
      ((Mem.receiver_consume_device_clipboard r).1.bind h.read,
        Mem.abstraction h (Mem.receiver_consume_device_clipboard r).2) := by
  simp [receiver_consume_device_clipboard, Mem.receiver_consume_device_clipboard,
    Mem.abstraction]

/-! ## The claims -/

/-- C7: the decode loop drains every completely-framed prefix. For every window
`buf[0..len)` (a window of an array, so `len < 2 ^ 63`) that holds `k ≥ 0`
complete frames followed by a tail on which the decoder returns INCOMPLETE,
`process_events`, given at least `k + 1` turns, returns the sum of the sizes of
the frames; it calls `process_event` exactly once per frame, in wire order, posts
one notification per clipboard event (`k` of them when every frame is a
clipboard frame), makes `k + 1` decode attempts at most and reads nothing. -/
theorem process_events_drains_frames (cfg : Config) (dec : Deserializer) (buf : List Nat)
    (len : Nat) (frames : List (Nat × device_event)) (w : World) (fuel : Nat)
    (hlen : len < 9223372036854775808) (hf : Framed dec buf len 0 0 frames)
    (hfuel : frames.length < fuel) :
    ∃ w1, process_events cfg dec fuel w buf len = some ((frames_size frames : Int), w1) ∧
      dispatched w1.log = dispatched w.log ++ frames.map Prod.snd ∧
      notifications w1.log = notifications w.log + clipboard_count cfg frames ∧
      ((∀ f ∈ frames, f.2.type = cfg.DEVICE_EVENT_TYPE_CLIPBOARD) →
        notifications w1.log = notifications w.log + frames.length) ∧
      decode_attempts w1.log ≤ decode_attempts w.log + frames.length + 1 ∧
      reads w1.log = reads w.log :=
  process_events_framed cfg dec buf len frames w fuel hlen hf hfuel

/-- C7 at a concrete window: the frames of `hello` and of the empty text, then
two bytes of a third frame. -/
theorem process_events_drains_frames_witness :
    ∃ w1, process_events sample_cfg (device_event_deserialize sample_cfg) 3 sample_world
        (clipboard_frame sample_cfg hello ++ clipboard_frame sample_cfg [] ++ [0, 0]) 17 =
          some ((frames_size [(10, ⟨0, hello⟩), (5, ⟨0, []⟩)] : Int), w1) ∧
      dispatched w1.log = dispatched sample_world.log ++
        [(10, (⟨0, hello⟩ : device_event)), (5, ⟨0, []⟩)].map Prod.snd ∧
      notifications w1.log = notifications sample_world.log +
        clipboard_count sample_cfg [(10, ⟨0, hello⟩), (5, ⟨0, []⟩)] ∧
      ((∀ f ∈ [(10, (⟨0, hello⟩ : device_event)), (5, ⟨0, []⟩)],
          f.2.type = sample_cfg.DEVICE_EVENT_TYPE_CLIPBOARD) →
        notifications w1.log = notifications sample_world.log +
          [(10, (⟨0, hello⟩ : device_event)), (5, ⟨0, []⟩)].length) ∧
      decode_attempts w1.log ≤ decode_attempts sample_world.log +
        [(10, (⟨0, hello⟩ : device_event)), (5, ⟨0, []⟩)].length + 1 ∧
      reads w1.log = reads sample_world.log :=
  process_events_drains_frames sample_cfg (device_event_deserialize sample_cfg)
    (clipboard_frame sample_cfg hello ++ clipboard_frame sample_cfg [] ++ [0, 0]) 17
    [(10, ⟨0, hello⟩), (5, ⟨0, []⟩)] sample_world 3 (by decide)
    (by decide) (by decide)

/-- C2: relocation after one pass. From `used == 0` (`head = 0`), when the read
delivers one complete frame `frame` followed by `N` bytes `tail` on which the
decoder reports INCOMPLETE (`N ≥ 0`, the whole fitting the buffer), one turn of
the loop of `run_receiver` goes round again with exactly the bytes of `tail`,
in order, at `buf[0..N)` and with `head = N`; the array keeps its size. -/
theorem run_receiver_turn_relocates (cfg : Config) (dec : Deserializer) (fuel : Nat)
    (s : run_state) (frame tail : List Nat) (e : device_event)
    (hmax : cfg.DEVICE_EVENT_SERIALIZED_MAX_SIZE < 9223372036854775808)
    (hcap : s.buf.length = cfg.DEVICE_EVENT_SERIALIZED_MAX_SIZE)
    (hhead : s.head = 0)
    (hfit : frame.length + tail.length ≤ requested cfg s.head)
    (hframe : dec (frame ++ tail) = ((frame.length : Int), e)) (hc : 1 ≤ frame.length)
    (htail : (dec tail).1 = 0) (hfuel : 2 ≤ fuel) :
    ∃ s1, run_receiver_turn cfg dec fuel
        { ret := ((frame ++ tail).length : Int), bytes := frame ++ tail } s = some (.cont s1) ∧
      s1.head = tail.length ∧ s1.buf.take tail.length = tail ∧
      s1.buf.length = s.buf.length := by
  have hreq : requested cfg s.head = cfg.DEVICE_EVENT_SERIALIZED_MAX_SIZE := by
    unfold requested
    rw [hhead]
    simpa using to_size_t_natCast
      (show cfg.DEVICE_EVENT_SERIALIZED_MAX_SIZE < SIZE_MODULUS by unfold SIZE_MODULUS; omega)
  rw [hreq] at hfit
  have hlen : (frame ++ tail).length = frame.length + tail.length := List.length_append _ _
  have hM : (frame ++ tail).length < SIZE_MODULUS := by unfold SIZE_MODULUS; omega
  have hbuf : blit s.buf 0 (frame ++ tail) =
      frame ++ tail ++ s.buf.drop (frame ++ tail).length := blit_zero _ _
  have hframed : Framed dec (blit s.buf 0 (frame ++ tail)) (frame ++ tail).length 0 0
      [(frame.length, e)] := by
    refine ⟨hc, by omega, ?_, ?_⟩
    · show dec (window _ 0 ((frame ++ tail).length - 0)) = _
      rw [hbuf, Nat.sub_zero, window_append_left]
      exact hframe
    · show (dec (window _ (0 + frame.length) ((frame ++ tail).length - (0 + frame.length)))).1 = 0
      have h1 : (frame ++ tail).length - (0 + frame.length) = tail.length := by omega
      rw [hbuf, h1, Nat.zero_add, window_append_mid]
      exact htail
  obtain ⟨w1, hp, -⟩ := process_events_framed cfg dec (blit s.buf 0 (frame ++ tail))
    (frame ++ tail).length [(frame.length, e)]
    (world_after_read cfg { ret := ((frame ++ tail).length : Int), bytes := frame ++ tail } s)
    fuel (by omega) hframed (by simpa using hfuel)
  have hsize : frames_size [(frame.length, e)] = frame.length := by simp [frames_size]
  rw [hsize] at hp
  have hturn := run_receiver_turn_pass cfg dec fuel
    { ret := ((frame ++ tail).length : Int), bytes := frame ++ tail } s
    (by show ((frame ++ tail).length : Int) ≠ -1; omega) (frame.length : Int) w1
    (by
      show process_events cfg dec fuel _ _ (to_size_t ((frame ++ tail).length : Int)) = _
      rw [to_size_t_natCast hM]
      exact hp)
  have hne1 : (frame.length : Int) ≠ -1 := by omega
  have hne0 : (frame.length : Int) ≠ 0 := by omega
  have hsub : to_size_t (((frame ++ tail).length : Int) - (frame.length : Int)) = tail.length := by
    rw [to_size_t_sub (by omega) hM]
    omega
  simp only [hne1, hne0, if_false, ne_eq, not_false_eq_true, if_true, hsub,
    Int.toNat_ofNat] at hturn
  refine ⟨_, hturn, rfl, ?_, ?_⟩
  · show (blit _ 0 (window _ frame.length tail.length)).take tail.length = tail
    rw [hbuf, window_append_mid, blit_zero]
    simp
  · show (blit _ 0 (window _ frame.length tail.length)).length = s.buf.length
    rw [hbuf, window_append_mid, blit_zero_length, ← hbuf, blit_zero_length]
    · omega
    · rw [← hbuf, blit_zero_length] <;> omega

/-- C2 at a concrete read: the frame of `hello` followed by three bytes of the
next frame. -/
theorem run_receiver_turn_relocates_witness :
    ∃ s1, run_receiver_turn sample_cfg (device_event_deserialize sample_cfg) 2
        { ret := ((clipboard_frame sample_cfg hello ++ [0, 0, 0]).length : Int),
          bytes := clipboard_frame sample_cfg hello ++ [0, 0, 0] }
        { buf := sample_buf, head := 0, world := sample_world } = some (.cont s1) ∧
      s1.head = [0, 0, 0].length ∧ s1.buf.take [0, 0, 0].length = [0, 0, 0] ∧
      s1.buf.length = sample_buf.length :=
  run_receiver_turn_relocates sample_cfg (device_event_deserialize sample_cfg) 2
    { buf := sample_buf, head := 0, world := sample_world } (clipboard_frame sample_cfg hello)
    [0, 0, 0] ⟨0, hello⟩ (by decide) (by decide) rfl (by decide) (by decide) (by decide)
    (by decide) (by decide)

/-- C3 (as amended): last-write-wins mailbox. After `process_event` has been
applied to the clipboard events of a non-empty sequence of texts (`ts` followed
by `t`), from any receiver state, the next
`receiver_consume_device_clipboard` returns what `SDL_strdup` returned for the
last text `t`: `t` itself when the copy could be allocated, `NULL` when it could
not, never an earlier text or a concatenation; a second consume right after
returns `NULL`. -/
theorem consume_returns_last_text (cfg : Config) (w : World) (ts : List (List Nat))
    (t : List Nat) :
    (receiver_consume_device_clipboard (process_clipboard_texts cfg w (ts ++ [t])).receiver).1 =
        SDL_strdup cfg ((process_clipboard_texts cfg w ts).log ++
          [.process_event ⟨cfg.DEVICE_EVENT_TYPE_CLIPBOARD, t⟩]) t ∧
      (cfg.strdup_allocates ((process_clipboard_texts cfg w ts).log ++
          [.process_event ⟨cfg.DEVICE_EVENT_TYPE_CLIPBOARD, t⟩]) t = true →
        (receiver_consume_device_clipboard
          (process_clipboard_texts cfg w (ts ++ [t])).receiver).1 = some t) ∧
      (cfg.strdup_allocates ((process_clipboard_texts cfg w ts).log ++
          [.process_event ⟨cfg.DEVICE_EVENT_TYPE_CLIPBOARD, t⟩]) t = false →
        (receiver_consume_device_clipboard
          (process_clipboard_texts cfg w (ts ++ [t])).receiver).1 = none) ∧
      (receiver_consume_device_clipboard
        (receiver_consume_device_clipboard
          (process_clipboard_texts cfg w (ts ++ [t])).receiver).2).1 = none := by
  have h : (receiver_consume_device_clipboard
      (process_clipboard_texts cfg w (ts ++ [t])).receiver).1 =
      SDL_strdup cfg ((process_clipboard_texts cfg w ts).log ++
        [.process_event ⟨cfg.DEVICE_EVENT_TYPE_CLIPBOARD, t⟩]) t := by
    unfold process_clipboard_texts
    rw [List.foldl_append]
    simp only [List.foldl_cons, List.foldl_nil]
    rw [process_event_clipboard cfg _ _ rfl]
    simp [receiver_consume_device_clipboard]
  refine ⟨h, ?_, ?_, ?_⟩
  · intro hal
    rw [h]
    simp [SDL_strdup, hal]
  · intro hal
    rw [h]
    simp [SDL_strdup, hal]
  · simp [receiver_consume_device_clipboard]

/-- C3 at the sequence of the spec, with an allocator that does not fail: set
`A`, set `B`, consume gives `B`, consume gives nothing. -/
theorem consume_returns_last_text_witness :
    (receiver_consume_device_clipboard
        (process_clipboard_texts sample_cfg sample_world ([[65]] ++ [[66]])).receiver).1 =
        some [66] ∧
      (receiver_consume_device_clipboard
        (receiver_consume_device_clipboard
          (process_clipboard_texts sample_cfg sample_world ([[65]] ++ [[66]])).receiver).2).1 =
        none :=
  ⟨(consume_returns_last_text sample_cfg sample_world [[65]] [66]).2.1 rfl,
    (consume_returns_last_text sample_cfg sample_world [[65]] [66]).2.2.2⟩

/-- C3 as first stated fails when `SDL_strdup` returns `NULL`: with an allocator
that fails, after set `A` and set `B` the consume does not return `B`. -/
theorem consume_returns_last_text_counterexample :
    ¬ (receiver_consume_device_clipboard
        (process_clipboard_texts out_of_memory_cfg sample_world ([[65]] ++ [[66]])).receiver).1 =
      some [66] := by
  decide

/-- C4: a fresh mailbox is empty. For every socket handle, when `receiver_init`
succeeds, `receiver_consume_device_clipboard` called right afterwards returns
`NULL`, and the slot is empty afterwards. -/
theorem consume_after_init (created : Option Nat) (r : receiver) (control_socket : Nat)
    (h : (receiver_init created r control_socket).1 = true) :
    (receiver_consume_device_clipboard (receiver_init created r control_socket).2).1 = none ∧
      (receiver_consume_device_clipboard
        (receiver_init created r control_socket).2).2.clipboard_text = none := by
  cases created with
  | none => simp [receiver_init] at h
  | some m => simp [receiver_init, receiver_consume_device_clipboard]

/-- C4 at a concrete initialisation, over a structure that held a text before. -/
theorem consume_after_init_witness :
    (receiver_init (some 1) ⟨none, 0, some hello⟩ 7).1 = true ∧
      (receiver_consume_device_clipboard
        (receiver_init (some 1) ⟨none, 0, some hello⟩ 7).2).1 = none ∧
      (receiver_consume_device_clipboard
        (receiver_init (some 1) ⟨none, 0, some hello⟩ 7).2).2.clipboard_text = none :=
  ⟨rfl, consume_after_init (some 1) ⟨none, 0, some hello⟩ 7 rfl⟩

/-- C6: a protocol error ends receiving. In a turn of `run_receiver` whose read
did not fail, if the decoder returns `-1` at an offset `head` reached during the
pass (in the world `w`), then, given enough turns, `process_events` returns `-1`
and `run_receiver` returns `0` whatever reads are still to come: its final world
is `w` followed by the failed decode attempt alone, so no further read or
decode attempt is made, and `buf` and `head` are left as they were. -/
theorem decode_error_ends_receiving (cfg : Config) (dec : Deserializer) (s : run_state)
    (rr : recv_result) (rest : List recv_result) (head : Nat) (w : World)
    (hret : rr.ret ≠ -1)
    (hr : Reached cfg dec (blit s.buf 0 rr.bytes) (to_size_t rr.ret)
      (world_after_read cfg rr s) head w)
    (herr : (dec (window (blit s.buf 0 rr.bytes) head
      (to_size_t (((to_size_t rr.ret : Nat) : Int) - (head : Int))))).1 = -1) :
    ∃ n, ∀ fuel, n ≤ fuel →
      process_events cfg dec fuel (world_after_read cfg rr s) (blit s.buf 0 rr.bytes)
          (to_size_t rr.ret) =
        some (-1, w.emit (.deserialize head
          (to_size_t (((to_size_t rr.ret : Nat) : Int) - (head : Int))) (-1))) ∧
      run_receiver_loop cfg dec fuel (rr :: rest) s =
        some (.returned 0 (run_state.mk (blit s.buf 0 rr.bytes) s.head
          (w.emit (.deserialize head
            (to_size_t (((to_size_t rr.ret : Nat) : Int) - (head : Int))) (-1))))) := by
  obtain ⟨n, hn⟩ := process_events_error_at cfg dec (blit s.buf 0 rr.bytes) (to_size_t rr.ret)
    (world_after_read cfg rr s) head w hr herr
  refine ⟨n, fun fuel hf => ⟨hn fuel hf, ?_⟩⟩
  have hturn := run_receiver_turn_pass cfg dec fuel rr s hret (-1) _ (hn fuel hf)
  simp only [if_true] at hturn
  simp only [run_receiver_loop, hturn]

/-- C6 at a concrete read: the frame of `hello` followed by the unknown tag 9,
with one more read that is never made. -/
theorem decode_error_ends_receiving_witness :
    ∃ n, ∀ fuel, n ≤ fuel →
      process_events sample_cfg (device_event_deserialize sample_cfg) fuel
          (world_after_read sample_cfg sample_bad_read sample_state)
          (blit sample_state.buf 0 sample_bad_read.bytes) (to_size_t sample_bad_read.ret) =
        some (-1, World.emit (process_event sample_cfg
            (World.emit (world_after_read sample_cfg sample_bad_read sample_state)
              (.deserialize 0 11 10)) ⟨0, hello⟩)
          (.deserialize 10
            (to_size_t (((to_size_t sample_bad_read.ret : Nat) : Int) - ((10 : Nat) : Int)))
            (-1))) ∧
      run_receiver_loop sample_cfg (device_event_deserialize sample_cfg) fuel
          (sample_bad_read :: [⟨10, clipboard_frame sample_cfg hello⟩]) sample_state =
        some (.returned 0 (run_state.mk (blit sample_state.buf 0 sample_bad_read.bytes)
          sample_state.head
          (World.emit (process_event sample_cfg
              (World.emit (world_after_read sample_cfg sample_bad_read sample_state)
                (.deserialize 0 11 10)) ⟨0, hello⟩)
            (.deserialize 10
              (to_size_t (((to_size_t sample_bad_read.ret : Nat) : Int) - ((10 : Nat) : Int)))
              (-1))))) :=
  decode_error_ends_receiving sample_cfg (device_event_deserialize sample_cfg) sample_state
    sample_bad_read [⟨10, clipboard_frame sample_cfg hello⟩] 10
    (process_event sample_cfg
      (World.emit (world_after_read sample_cfg sample_bad_read sample_state)
        (.deserialize 0 11 10)) ⟨0, hello⟩)
    (by decide) (Reached.step Reached.start (by decide)) (by decide)

/-- C10: the buffer bound. In every reachable state of the loop of
`run_receiver`, `head ≤ DEVICE_EVENT_SERIALIZED_MAX_SIZE`, when every `net_recv`
returns `-1` or between 1 and the requested number of bytes, and the decoder
returns `-1`, `0` or a size between 1 and the number of bytes it was given
(the capacity being a valid `ssize_t`). -/
theorem head_le_capacity (cfg : Config) (dec : Deserializer) (fuel : Nat) (buf0 : List Nat)
    (w0 : World) (s : run_state)
    (hmax : cfg.DEVICE_EVENT_SERIALIZED_MAX_SIZE < 9223372036854775808)
    (hdec : dec.bounded) (hs : Reachable cfg dec fuel buf0 w0 s) :
    s.head ≤ cfg.DEVICE_EVENT_SERIALIZED_MAX_SIZE := by
  induction hs with
  | init => exact Nat.zero_le _
  | @step s rr s1 _ hvalid hnz hturn ih =>
      have hM : cfg.DEVICE_EVENT_SERIALIZED_MAX_SIZE < SIZE_MODULUS := by
        unfold SIZE_MODULUS; omega
      have hreq : requested cfg s.head = cfg.DEVICE_EVENT_SERIALIZED_MAX_SIZE - s.head :=
        to_size_t_sub ih hM
      rw [hreq] at hvalid
      rcases hvalid with ⟨h1, _⟩ | ⟨h0, hle, _⟩
      · rw [run_receiver_turn_error cfg dec fuel rr s h1] at hturn
        simp at hturn
      · have hne : rr.ret ≠ -1 := by omega
        have hlen : to_size_t rr.ret = rr.ret.toNat := by
          have := to_size_t_natCast (n := rr.ret.toNat) (by unfold SIZE_MODULUS at *; omega)
          rwa [Int.toNat_of_nonneg h0] at this
        cases hp : process_events cfg dec fuel (world_after_read cfg rr s)
            (blit s.buf 0 rr.bytes) (to_size_t rr.ret) with
        | none =>
            rw [run_receiver_turn_stuck cfg dec fuel rr s hne hp] at hturn
            simp at hturn
        | some res =>
            obtain ⟨v, w1⟩ := res
            rw [run_receiver_turn_pass cfg dec fuel rr s hne v w1 hp] at hturn
            have hb := process_events_loop_bounded cfg dec (blit s.buf 0 rr.bytes)
              (to_size_t rr.ret) hdec (by rw [hlen]; omega) fuel 0
              (world_after_read cfg rr s) v w1 (Nat.zero_le _) hp
            by_cases hv1 : v = -1
            · simp [hv1] at hturn
            · by_cases hv0 : v = 0
              · subst hv0
                simp at hturn
                rw [← hturn]
                exact ih
              · simp only [hv1, hv0, if_false, ne_eq, not_false_eq_true, if_true,
                  Option.some.injEq, Flow.cont.injEq] at hturn
                rw [← hturn]
                show to_size_t (rr.ret - v) ≤ _
                rcases hb with hb | ⟨hb1, hb2⟩
                · exact absurd hb hv1
                · rw [hlen] at hb2
                  have hd : to_size_t (rr.ret - v) = (rr.ret - v).toNat := by
                    have := to_size_t_natCast (n := (rr.ret - v).toNat)
                      (by unfold SIZE_MODULUS at *; omega)
                    rwa [Int.toNat_of_nonneg (by omega)] at this
                  rw [hd]
                  omega

/-- C10 at a concrete reachable state: after the read of the frame of `hello`
followed by three bytes, `head` is 3. -/
theorem head_le_capacity_witness :
    sample_state_after.head ≤ sample_cfg.DEVICE_EVENT_SERIALIZED_MAX_SIZE :=
  head_le_capacity sample_cfg (device_event_deserialize sample_cfg) 2 sample_buf sample_world
    sample_state_after (by decide) (device_event_deserialize_bounded sample_cfg)
    (@Reachable.step sample_cfg (device_event_deserialize sample_cfg) 2 sample_buf sample_world
      sample_state sample_read sample_state_after Reachable.init (by decide) (by decide)
      (by decide))

/-- C1 (what the code does): the stream of the one frame of `hello`, split into a
read of its first byte and a read of its nine other bytes, dispatches no event at
all and leaves the mailbox as it was, whatever the constants, the content of the
array and the world on entry. The second read is stored over the first byte, and
the pass looks only at the bytes of the second read. -/
theorem split_frame_dispatches_nothing (cfg : Config) (fuel : Nat) (buf0 : List Nat)
    (w : World) :
    [cfg.DEVICE_EVENT_TYPE_CLIPBOARD] ++ [0, 0, 0, 5, 104, 101, 108, 108, 111] =
        clipboard_frame cfg hello ∧
      ∃ o, run_receiver cfg (device_event_deserialize cfg) (fuel + 1) buf0
          [⟨1, [cfg.DEVICE_EVENT_TYPE_CLIPBOARD]⟩, ⟨9, [0, 0, 0, 5, 104, 101, 108, 108, 111]⟩] w =
            some o ∧
        dispatched o.state.world.log = dispatched w.log ∧
        notifications o.state.world.log = notifications w.log ∧
        o.state.world.receiver = w.receiver := by
  refine ⟨rfl, ?_⟩
  have h1 := run_receiver_turn_incomplete cfg (device_event_deserialize cfg) fuel
    (run_state.mk buf0 0 w) ⟨1, [cfg.DEVICE_EVENT_TYPE_CLIPBOARD]⟩ rfl (by simp)
    (by simp [device_event_deserialize])
  have hd : ((device_event_deserialize cfg) [0, 0, 0, 5, 104, 101, 108, 108, 111]).1 = -1 ∨
      ((device_event_deserialize cfg) [0, 0, 0, 5, 104, 101, 108, 108, 111]).1 = 0 := by
    simp only [device_event_deserialize]
    split_ifs with a b c
    · simp
    · simp
    · simp
    · simp at c
  rcases hd with hd | hd
  · have h2 := fun s => run_receiver_turn_decode_error cfg (device_event_deserialize cfg) fuel
      s ⟨9, [0, 0, 0, 5, 104, 101, 108, 108, 111]⟩ rfl (by simp) hd
    refine ⟨_, by simp only [run_receiver, run_receiver_loop, h1, h2]; rfl, ?_, ?_, ?_⟩ <;>
      simp [Outcome.state, world_after_read, World.emit, dispatched_append, dispatched,
        notifications_append, notifications]
  · have h2 := fun s => run_receiver_turn_incomplete cfg (device_event_deserialize cfg) fuel
      s ⟨9, [0, 0, 0, 5, 104, 101, 108, 108, 111]⟩ rfl (by simp) hd
    refine ⟨_, by simp only [run_receiver, run_receiver_loop, h1, h2]; rfl, ?_, ?_, ?_⟩ <;>
      simp [Outcome.state, world_after_read, World.emit, dispatched_append, dispatched,
        notifications_append, notifications]

/-- C5 (what the code does): when `net_recv` returns `0`, the loop of
`run_receiver` is not left. The condition of `SDL_assert(r)` is false, the
decoder is invoked on the empty window, and, the decoder answering INCOMPLETE
there, the turn goes round again with `buf` and `head` as they were: the next
read of the script is performed. -/
theorem zero_read_goes_on (cfg : Config) (fuel : Nat) (s : run_state)
    (rest : List recv_result) :
    run_receiver_turn cfg (device_event_deserialize cfg) (fuel + 1) ⟨0, []⟩ s =
        some (.cont (run_state.mk s.buf s.head
          (World.mk s.world.receiver
            (s.world.log ++
              [.net_recv (requested cfg s.head) 0, .assert_failed, .deserialize 0 0 0])))) ∧
      run_receiver_loop cfg (device_event_deserialize cfg) (fuel + 1) (⟨0, []⟩ :: rest) s =
        run_receiver_loop cfg (device_event_deserialize cfg) (fuel + 1) rest
          (run_state.mk s.buf s.head
            (World.mk s.world.receiver
              (s.world.log ++
                [.net_recv (requested cfg s.head) 0, .assert_failed, .deserialize 0 0 0]))) := by
  have h := run_receiver_turn_incomplete cfg (device_event_deserialize cfg) fuel s ⟨0, []⟩ rfl
    (by simp) rfl
  have hb : blit s.buf 0 [] = s.buf := by simp [blit]
  have hw : (world_after_read cfg ⟨0, []⟩ s).emit (.deserialize 0 ([] : List Nat).length 0) =
      World.mk s.world.receiver
        (s.world.log ++
          [.net_recv (requested cfg s.head) 0, .assert_failed, .deserialize 0 0 0]) := by
    simp [world_after_read, World.emit]
  rw [hb, hw] at h
  exact ⟨h, by simp only [run_receiver_loop, h]⟩

/-- C8 (what the code does): the read stores at `buf[0]`, not at `buf[head]`.
After the read of the frame of `hello` followed by the first three bytes
`0, 0, 0` of a second frame of `hello`, `head` is 3. The next read, of the seven
other bytes of that frame, is asked for `32 - 3` bytes and stored at
`buf[0..7)`: `buf[0..3)` is changed, `buf[3..10)` is not the bytes read, and
the pass over `buf[0..7)` ends in a decode error. -/
theorem read_stores_at_offset_zero :
    run_receiver_turn sample_cfg (device_event_deserialize sample_cfg) 2 sample_read
        sample_state = some (.cont sample_state_after) ∧
      sample_state_after.head = 3 ∧ sample_state_after.buf.take 3 = [0, 0, 0] ∧
      ∃ s1, run_receiver_turn sample_cfg (device_event_deserialize sample_cfg) 2
          ⟨7, [0, 5, 104, 101, 108, 108, 111]⟩ sample_state_after = some (.brk s1) ∧
        s1.world.log = sample_state_after.world.log ++
          [.net_recv 29 7, .deserialize 0 7 (-1)] ∧
        s1.buf.take 7 = [0, 5, 104, 101, 108, 108, 111] ∧
        s1.buf.take 3 ≠ sample_state_after.buf.take 3 ∧
        window s1.buf 3 7 ≠ [0, 5, 104, 101, 108, 108, 111] := by
  refine ⟨by decide, rfl, by decide, ?_⟩
  refine ⟨run_state.mk (blit sample_state_after.buf 0 [0, 5, 104, 101, 108, 108, 111]) 3
    (World.mk sample_state_after.world.receiver (sample_state_after.world.log ++
      [.net_recv 29 7, .deserialize 0 7 (-1)])), by decide, rfl, by decide, by decide, by decide⟩

/-- C9 (what the code does): a pass that decodes no frame leaves `head` as it
was. From the entry of the loop (`head = 0`), the read of the first byte of a
frame goes round again with `head = 0`, not 1, whatever the constants. From the
state with `head = 3` reached after `sample_read`, a read of two more bytes of
the pending frame goes round again with `head = 3`, not 5, and the two bytes
are at `buf[0..2)`, over the first two of the three bytes kept. -/
theorem incomplete_pass_keeps_head (cfg : Config) (fuel : Nat) (buf0 : List Nat) (w : World) :
    run_receiver_turn cfg (device_event_deserialize cfg) (fuel + 1)
        ⟨1, [cfg.DEVICE_EVENT_TYPE_CLIPBOARD]⟩ (run_state.mk buf0 0 w) =
      some (.cont (run_state.mk (blit buf0 0 [cfg.DEVICE_EVENT_TYPE_CLIPBOARD]) 0
        (World.mk w.receiver
          (w.log ++ [.net_recv (requested cfg 0) 1, .deserialize 0 1 0])))) ∧
    run_receiver_turn sample_cfg (device_event_deserialize sample_cfg) 2 sample_read
        sample_state = some (.cont sample_state_after) ∧
    run_receiver_turn sample_cfg (device_event_deserialize sample_cfg) 2 ⟨2, [0, 5]⟩
        sample_state_after =
      some (.cont (run_state.mk (blit sample_state_after.buf 0 [0, 5]) 3
        (World.mk sample_state_after.world.receiver
          (sample_state_after.world.log ++ [.net_recv 29 2, .deserialize 0 2 0])))) := by
  refine ⟨?_, by decide, by decide⟩
  have h := run_receiver_turn_incomplete cfg (device_event_deserialize cfg) fuel
    (run_state.mk buf0 0 w) ⟨1, [cfg.DEVICE_EVENT_TYPE_CLIPBOARD]⟩ rfl (by simp)
    (by simp [device_event_deserialize])
  rw [h]
  simp [world_after_read, World.emit]

/-- C14: result bound and assertion validity of `process_events`. For every
window length `len` (of a window of an array, so `len < 2 ^ 63`) and every
decoder that returns `-1`, `0`, or a size between 1 and the number of bytes it
was given, `process_events` (given `max len 1` turns) returns `-1` or a value
`c` with `0 ≤ c ≤ len`, so that `len - c` does not underflow in the caller, and
no `SDL_assert(head <= len)` fails during the pass. -/
theorem process_events_result_bound (cfg : Config) (dec : Deserializer) (buf : List Nat)
    (len fuel : Nat) (w : World) (hdec : dec.bounded) (hlen : len < 9223372036854775808)
    (hfuel : max len 1 ≤ fuel) :
    ∃ v w1, process_events cfg dec fuel w buf len = some (v, w1) ∧
      (v = -1 ∨ (0 ≤ v ∧ v ≤ (len : Int) ∧ to_size_t ((len : Int) - v) = len - v.toNat)) ∧
      assertion_failures w1.log = assertion_failures w.log := by
  obtain ⟨v, w1, hp, -⟩ := process_events_loop_attempts cfg dec buf len hdec hlen fuel 0 w
    (Nat.zero_le _) (by simpa using hfuel)
  refine ⟨v, w1, hp, ?_, ?_⟩
  · rcases process_events_loop_bounded cfg dec buf len hdec hlen fuel 0 w v w1 (Nat.zero_le _)
      hp with h | ⟨h0, h1⟩
    · left; exact h
    · right
      have h0 : 0 ≤ v := by simpa using h0
      refine ⟨h0, h1, ?_⟩
      have := to_size_t_sub (a := len) (b := v.toNat) (by omega)
        (by unfold SIZE_MODULUS; omega)
      rwa [Int.toNat_of_nonneg h0] at this
  · exact process_events_loop_asserts cfg dec buf len hdec hlen fuel 0 w v w1 (Nat.zero_le _) hp

/-- C14 at a concrete window: the frame of `hello` followed by three bytes. -/
theorem process_events_result_bound_witness :
    ∃ v w1, process_events sample_cfg (device_event_deserialize sample_cfg) 13 sample_world
        sample_read.bytes 13 = some (v, w1) ∧
      (v = -1 ∨ (0 ≤ v ∧ v ≤ ((13 : Nat) : Int) ∧
        to_size_t (((13 : Nat) : Int) - v) = 13 - v.toNat)) ∧
      assertion_failures w1.log = assertion_failures sample_world.log :=
  process_events_result_bound sample_cfg (device_event_deserialize sample_cfg)
    sample_read.bytes 13 13 sample_world (device_event_deserialize_bounded sample_cfg)
    (by decide) (by decide)

/-- C15: `process_events` terminates. For every window length `len` (of a
window of an array, so `len < 2 ^ 63`) and every decoder that returns `-1`, `0`,
or a size between 1 and the number of bytes it was given, `max len 1` turns are
enough for `process_events` to return, it makes at most `max len 1` decode
attempts, and `len - head` strictly decreases on every turn that does not
return. -/
theorem process_events_terminates (cfg : Config) (dec : Deserializer) (buf : List Nat)
    (len fuel : Nat) (w : World) (hdec : dec.bounded) (hlen : len < 9223372036854775808)
    (hfuel : max len 1 ≤ fuel) :
    (∃ v w1, process_events cfg dec fuel w buf len = some (v, w1) ∧
        decode_attempts w1.log ≤ decode_attempts w.log + max len 1) ∧
      ∀ (head : Nat) (w2 : World) (head1 : Nat) (w3 : World), head ≤ len →
        process_events_turn cfg dec buf len head w2 = .next head1 w3 →
        head1 ≤ len ∧ len - head1 < len - head := by
  constructor
  · simpa using process_events_loop_attempts cfg dec buf len hdec hlen fuel 0 w
      (Nat.zero_le _) (by simpa using hfuel)
  · intro head w2 head1 w3 hh ht
    rcases process_events_turn_bounded cfg dec buf len head w2 hdec hlen hh with
      ⟨w4, h⟩ | ⟨w4, h⟩ | ⟨c, w4, hc, hin, h⟩
    · rw [h] at ht; simp at ht
    · rw [h] at ht; simp at ht
    · rw [h] at ht
      by_cases he : head + c = len
      · rw [if_pos he] at ht; simp at ht
      · rw [if_neg he] at ht
        simp only [Turn.next.injEq] at ht
        omega

/-- C15 at a concrete window: the frame of `hello` followed by three bytes. -/
theorem process_events_terminates_witness :
    (∃ v w1, process_events sample_cfg (device_event_deserialize sample_cfg) 13 sample_world
          sample_read.bytes 13 = some (v, w1) ∧
        decode_attempts w1.log ≤ decode_attempts sample_world.log + max 13 1) ∧
      ∀ (head : Nat) (w2 : World) (head1 : Nat) (w3 : World), head ≤ 13 →
        process_events_turn sample_cfg (device_event_deserialize sample_cfg)
          sample_read.bytes 13 head w2 = .next head1 w3 →
        head1 ≤ 13 ∧ 13 - head1 < 13 - head :=
  process_events_terminates sample_cfg (device_event_deserialize sample_cfg)
    sample_read.bytes 13 13 sample_world (device_event_deserialize_bounded sample_cfg)
    (by decide) (by decide)

/-- C16: the read request is never empty. In every reachable state of the loop
of `run_receiver`, `head < DEVICE_EVENT_SERIALIZED_MAX_SIZE`, so the length
passed to `net_recv` is `DEVICE_EVENT_SERIALIZED_MAX_SIZE - head` without
wrap-around and is at least 1, when every `net_recv` returns `-1` or between 1
and the requested number of bytes and the decoder returns `-1`, `0` or a size
between 1 and the number of bytes it was given (the capacity being at least 1
and a valid `ssize_t`). -/
theorem read_request_nonempty (cfg : Config) (dec : Deserializer) (fuel : Nat)
    (buf0 : List Nat) (w0 : World) (s : run_state)
    (hpos : 1 ≤ cfg.DEVICE_EVENT_SERIALIZED_MAX_SIZE)
    (hmax : cfg.DEVICE_EVENT_SERIALIZED_MAX_SIZE < 9223372036854775808)
    (hdec : dec.bounded) (hs : Reachable cfg dec fuel buf0 w0 s) :
    s.head < cfg.DEVICE_EVENT_SERIALIZED_MAX_SIZE ∧
      requested cfg s.head = cfg.DEVICE_EVENT_SERIALIZED_MAX_SIZE - s.head ∧
      1 ≤ requested cfg s.head := by
  have hM : cfg.DEVICE_EVENT_SERIALIZED_MAX_SIZE < SIZE_MODULUS := by
    unfold SIZE_MODULUS; omega
  have hreq : ∀ head, head < cfg.DEVICE_EVENT_SERIALIZED_MAX_SIZE →
      requested cfg head = cfg.DEVICE_EVENT_SERIALIZED_MAX_SIZE - head :=
    fun head hh => to_size_t_sub (by omega) hM
  suffices hlt : s.head < cfg.DEVICE_EVENT_SERIALIZED_MAX_SIZE by
    refine ⟨hlt, hreq _ hlt, ?_⟩
    rw [hreq _ hlt]; omega
  induction hs with
  | init => exact hpos
  | @step s rr s1 _ hvalid hnz hturn ih =>
      rw [hreq _ ih] at hvalid
      rcases hvalid with ⟨h1, _⟩ | ⟨h0, hle, _⟩
      · rw [run_receiver_turn_error cfg dec fuel rr s h1] at hturn
        simp at hturn
      · have hne : rr.ret ≠ -1 := by omega
        have hlen : to_size_t rr.ret = rr.ret.toNat := by
          have := to_size_t_natCast (n := rr.ret.toNat) (by unfold SIZE_MODULUS at *; omega)
          rwa [Int.toNat_of_nonneg h0] at this
        cases hp : process_events cfg dec fuel (world_after_read cfg rr s)
            (blit s.buf 0 rr.bytes) (to_size_t rr.ret) with
        | none =>
            rw [run_receiver_turn_stuck cfg dec fuel rr s hne hp] at hturn
            simp at hturn
        | some res =>
            obtain ⟨v, w1⟩ := res
            rw [run_receiver_turn_pass cfg dec fuel rr s hne v w1 hp] at hturn
            have hb := process_events_loop_bounded cfg dec (blit s.buf 0 rr.bytes)
              (to_size_t rr.ret) hdec (by rw [hlen]; omega) fuel 0
              (world_after_read cfg rr s) v w1 (Nat.zero_le _) hp
            by_cases hv1 : v = -1
            · simp [hv1] at hturn
            · by_cases hv0 : v = 0
              · subst hv0
                simp at hturn
                rw [← hturn]
                exact ih
              · simp only [hv1, hv0, if_false, ne_eq, not_false_eq_true, if_true,
                  Option.some.injEq, Flow.cont.injEq] at hturn
                rw [← hturn]
                show to_size_t (rr.ret - v) < _
                rcases hb with hb | ⟨hb1, hb2⟩
                · exact absurd hb hv1
                · rw [hlen] at hb2
                  have hd : to_size_t (rr.ret - v) = (rr.ret - v).toNat := by
                    have := to_size_t_natCast (n := (rr.ret - v).toNat)
                      (by unfold SIZE_MODULUS at *; omega)
                    rwa [Int.toNat_of_nonneg (by omega)] at this
                  rw [hd]
                  omega

/-- C16 at a concrete reachable state: after the read of the frame of `hello`
followed by three bytes, `head` is 3 and 29 bytes are asked for. -/
theorem read_request_nonempty_witness :
    sample_state_after.head < sample_cfg.DEVICE_EVENT_SERIALIZED_MAX_SIZE ∧
      requested sample_cfg sample_state_after.head =
        sample_cfg.DEVICE_EVENT_SERIALIZED_MAX_SIZE - sample_state_after.head ∧
      1 ≤ requested sample_cfg sample_state_after.head :=
  read_request_nonempty sample_cfg (device_event_deserialize sample_cfg) 2 sample_buf
    sample_world sample_state_after (by decide) (by decide)
    (device_event_deserialize_bounded sample_cfg)
    (@Reachable.step sample_cfg (device_event_deserialize sample_cfg) 2 sample_buf sample_world
      sample_state sample_read sample_state_after Reachable.init (by decide) (by decide)
      (by decide))

/-- C11 (as amended): what one decode attempt applies. For every single decode
attempt inside `process_events` (the turn entered with `head`), with a decoder
that returns `-1`, `0` or a positive size and a clipboard event when the size is
positive: when the attempt returns a positive size, the slot receives what
`SDL_strdup` returned for the text of the event (the text, or `NULL` when its
copy could not be allocated), one notification is posted in both cases and the
event is the one dispatched; when it returns `0` or `-1`, the turn returns at
once, having only recorded the attempt, and the slot, the receiver, the
notifications and the dispatched events are as before; so a notification is
posted if and only if the attempt returned a positive size. The window is only
read: a turn has no array among its results. -/
theorem decode_attempt_all_or_nothing (cfg : Config) (dec : Deserializer) (buf : List Nat)
    (len head : Nat) (w : World)
    (hret : (dec (decode_input buf len head)).1 = -1 ∨ 0 ≤ (dec (decode_input buf len head)).1)
    (hclip : 0 < (dec (decode_input buf len head)).1 →
      (dec (decode_input buf len head)).2.type = cfg.DEVICE_EVENT_TYPE_CLIPBOARD) :
    (0 < (dec (decode_input buf len head)).1 →
        (process_events_turn cfg dec buf len head w).world.receiver.clipboard_text =
          SDL_strdup cfg
            (w.log ++ [.deserialize head (to_size_t ((len : Int) - (head : Int)))
                (dec (decode_input buf len head)).1,
              .process_event (dec (decode_input buf len head)).2])
            (dec (decode_input buf len head)).2.text ∧
        ((process_events_turn cfg dec buf len head w).world.receiver.clipboard_text =
            some (dec (decode_input buf len head)).2.text ∨
          (process_events_turn cfg dec buf len head w).world.receiver.clipboard_text = none) ∧
        ((∀ l t, cfg.strdup_allocates l t = true) →
          (process_events_turn cfg dec buf len head w).world.receiver.clipboard_text =
            some (dec (decode_input buf len head)).2.text) ∧
        notifications (process_events_turn cfg dec buf len head w).world.log =
          notifications w.log + 1 ∧
        dispatched (process_events_turn cfg dec buf len head w).world.log =
          dispatched w.log ++ [(dec (decode_input buf len head)).2]) ∧
      ((dec (decode_input buf len head)).1 = 0 ∨ (dec (decode_input buf len head)).1 = -1 →
        (∃ v, process_events_turn cfg dec buf len head w =
          .ret v (w.emit (.deserialize head (to_size_t ((len : Int) - (head : Int)))
            (dec (decode_input buf len head)).1))) ∧
        (process_events_turn cfg dec buf len head w).world.receiver = w.receiver ∧
        notifications (process_events_turn cfg dec buf len head w).world.log =
          notifications w.log ∧
        dispatched (process_events_turn cfg dec buf len head w).world.log =
          dispatched w.log) ∧
      (notifications (process_events_turn cfg dec buf len head w).world.log =
        notifications w.log + 1 ↔ 0 < (dec (decode_input buf len head)).1) := by
  have hpos : 0 < (dec (decode_input buf len head)).1 →
      (process_events_turn cfg dec buf len head w).world.receiver.clipboard_text =
          SDL_strdup cfg
            (w.log ++ [.deserialize head (to_size_t ((len : Int) - (head : Int)))
                (dec (decode_input buf len head)).1,
              .process_event (dec (decode_input buf len head)).2])
            (dec (decode_input buf len head)).2.text ∧
        notifications (process_events_turn cfg dec buf len head w).world.log =
          notifications w.log + 1 ∧
        dispatched (process_events_turn cfg dec buf len head w).world.log =
          dispatched w.log ++ [(dec (decode_input buf len head)).2] := by
    intro h
    obtain ⟨hr, hn, hd⟩ := process_events_turn_decoded_effects cfg dec buf len head w
      (by omega) (by omega)
    have hc := hclip h
    rw [hr, hn, hd, process_event_receiver, if_pos hc, if_pos hc]
    simp [World.emit]
  have hnot : (dec (decode_input buf len head)).1 = 0 ∨
      (dec (decode_input buf len head)).1 = -1 →
      (∃ v, process_events_turn cfg dec buf len head w =
          .ret v (w.emit (.deserialize head (to_size_t ((len : Int) - (head : Int)))
            (dec (decode_input buf len head)).1))) ∧
        (process_events_turn cfg dec buf len head w).world.receiver = w.receiver ∧
        notifications (process_events_turn cfg dec buf len head w).world.log =
          notifications w.log ∧
        dispatched (process_events_turn cfg dec buf len head w).world.log =
          dispatched w.log := by
    intro h
    obtain ⟨v, hv⟩ := process_events_turn_not_decoded cfg dec buf len head w h
    refine ⟨⟨v, hv⟩, ?_, ?_, ?_⟩ <;> rw [hv] <;>
      simp [Turn.world, World.emit, notifications_append, notifications, dispatched_append,
        dispatched]
  refine ⟨?_, hnot, ?_⟩
  · intro h
    obtain ⟨hs, hn, hd⟩ := hpos h
    refine ⟨hs, ?_, ?_, hn, hd⟩
    · rw [hs]
      unfold SDL_strdup
      split_ifs <;> simp
    · intro hall
      rw [hs]
      simp [SDL_strdup, hall]
  · constructor
    · intro hn
      by_contra hle
      have h01 : (dec (decode_input buf len head)).1 = 0 ∨
          (dec (decode_input buf len head)).1 = -1 := by omega
      rw [(hnot h01).2.2.1] at hn
      omega
    · intro h
      exact (hpos h).2.1

/-- C11 at a concrete attempt, with the decoder of the spec and an allocator that
does not fail: the frame of `hello` at the start of the window. -/
theorem decode_attempt_all_or_nothing_witness :
    0 < (device_event_deserialize sample_cfg (decode_input sample_read.bytes 13 0)).1 ∧
      (process_events_turn sample_cfg (device_event_deserialize sample_cfg) sample_read.bytes
        13 0 sample_world).world.receiver.clipboard_text = some hello ∧
      notifications (process_events_turn sample_cfg (device_event_deserialize sample_cfg)
        sample_read.bytes 13 0 sample_world).world.log = notifications sample_world.log + 1 :=
  ⟨by decide,
    ((decode_attempt_all_or_nothing sample_cfg (device_event_deserialize sample_cfg)
      sample_read.bytes 13 0 sample_world (device_event_deserialize_ret sample_cfg _)
      (device_event_deserialize_clipboard sample_cfg _)).1 (by decide)).2.2.1 (fun _ _ => rfl),
    ((decode_attempt_all_or_nothing sample_cfg (device_event_deserialize sample_cfg)
      sample_read.bytes 13 0 sample_world (device_event_deserialize_ret sample_cfg _)
      (device_event_deserialize_clipboard sample_cfg _)).1 (by decide)).2.2.2.1⟩

/-- C11 as first stated fails when `SDL_strdup` returns `NULL`: with an allocator
that fails, the attempt on the frame of `hello` returns a positive size and a
notification is posted, yet the slot does not hold `hello`: the receiver is
exactly as it was before the attempt. -/
theorem decode_attempt_all_or_nothing_counterexample :
    0 < (device_event_deserialize out_of_memory_cfg (decode_input sample_read.bytes 13 0)).1 ∧
      notifications (process_events_turn out_of_memory_cfg
        (device_event_deserialize out_of_memory_cfg) sample_read.bytes 13 0
        sample_world).world.log = notifications sample_world.log + 1 ∧
      ¬ (process_events_turn out_of_memory_cfg (device_event_deserialize out_of_memory_cfg)
        sample_read.bytes 13 0 sample_world).world.receiver.clipboard_text = some hello ∧
      (process_events_turn out_of_memory_cfg (device_event_deserialize out_of_memory_cfg)
        sample_read.bytes 13 0 sample_world).world.receiver = sample_world.receiver := by
  decide

/-- C12: `receiver_init` fails exactly when the mutex cannot be created. It
returns `false` if and only if `SDL_CreateMutex` returned `NULL`; when it
returns `true`, the socket handle of the receiver is the one given and the slot
is empty. -/
theorem receiver_init_fails_iff (created : Option Nat) (r : receiver) (control_socket : Nat) :
    ((receiver_init created r control_socket).1 = false ↔ created = none) ∧
      ((receiver_init created r control_socket).1 = true →
        (receiver_init created r control_socket).2.control_socket = control_socket ∧
        (receiver_init created r control_socket).2.clipboard_text = none ∧
        (receiver_init created r control_socket).2.mutex = created) := by
  cases created with
  | none => simp [receiver_init]
  | some m => simp [receiver_init]

/-- C12 at a concrete initialisation, over a structure that held other values. -/
theorem receiver_init_fails_iff_witness :
    (receiver_init (some 1) ⟨none, 0, some hello⟩ 7).2.control_socket = 7 ∧
      (receiver_init (some 1) ⟨none, 0, some hello⟩ 7).2.clipboard_text = none ∧
      (receiver_init (some 1) ⟨none, 0, some hello⟩ 7).2.mutex = some 1 :=
  (receiver_init_fails_iff (some 1) ⟨none, 0, some hello⟩ 7).2 rfl

/-- C13 (what the code does): `process_event` frees nothing. Applied to a
clipboard event in any heap and any receiver state, it leaves every allocation
that was live still live, the string of the slot among them, and stores the
address of the new copy in the slot. After two clipboard events with no consume
in between, the strings `a` (address 0) and `b` (address 1) are both live and
the slot holds address 1: address 0 is held by nobody. `receiver_destroy` then
frees address 1 only, and so does a consumer that frees what consume hands it:
the string at address 0 is never freed. -/
theorem overwrite_leaks_previous_string (cfg : Config) (h : Mem.Heap) (r : Mem.receiver)
    (t a b : List Nat) :
    (Mem.process_event cfg h r ⟨cfg.DEVICE_EVENT_TYPE_CLIPBOARD, t⟩).1.live =
        (h.next, t) :: h.live ∧
      (Mem.process_event cfg h r ⟨cfg.DEVICE_EVENT_TYPE_CLIPBOARD, t⟩).2.clipboard_text =
        some h.next ∧
      (Mem.after_two_events cfg a b).1.live = [(1, b), (0, a)] ∧
      (Mem.after_two_events cfg a b).2.clipboard_text = some 1 ∧
      (Mem.receiver_destroy (Mem.after_two_events cfg a b).1
        (Mem.after_two_events cfg a b).2).live = [(0, a)] ∧
      (Mem.receiver_consume_device_clipboard (Mem.after_two_events cfg a b).2).1 = some 1 ∧
      (Mem.receiver_destroy
        (Mem.SDL_free (Mem.after_two_events cfg a b).1
          (Mem.receiver_consume_device_clipboard (Mem.after_two_events cfg a b).2).1)
        (Mem.receiver_consume_device_clipboard (Mem.after_two_events cfg a b).2).2).live =
          [(0, a)] := by
  simp [Mem.process_event, Mem.SDL_strdup, Mem.after_two_events, Mem.empty_heap,
    Mem.fresh_receiver, Mem.receiver_destroy, Mem.SDL_free,
    Mem.receiver_consume_device_clipboard]

/-- C17 (as amended): a failing pass is not atomic over the window. On the
window made of the clipboard frame of `hello` followed by the byte 9, on which
the decoder returns `-1`, `process_events` returns `-1` and yet the slot, empty
before, holds `hello` and one notification has been posted (the allocator not
failing). In general, for any decoder, when `process_events` returns `-1` the
slot follows the calls recorded during the pass: it is as before when no
clipboard event was dispatched, and otherwise holds what `SDL_strdup` returned
for the text of the last clipboard event dispatched, that text or `NULL` when
its copy could not be allocated (the text whenever the allocator does not
fail); one notification has been posted for each clipboard event dispatched. -/
theorem failing_pass_is_not_atomic :
    (sample_bad_read.bytes = clipboard_frame sample_cfg hello ++ [9] ∧
      (device_event_deserialize sample_cfg [9]).1 = -1 ∧
      sample_world.receiver.clipboard_text = none ∧
      ∃ w1, process_events sample_cfg (device_event_deserialize sample_cfg) 2 sample_world
          sample_bad_read.bytes 11 = some (-1, w1) ∧
        w1.receiver.clipboard_text = some hello ∧ notifications w1.log = 1) ∧
      ∀ (cfg : Config) (dec : Deserializer) (fuel : Nat) (w : World) (buf : List Nat)
        (len : Nat) (w1 : World),
        process_events cfg dec fuel w buf len = some (-1, w1) →
        ∃ new, w1.log = w.log ++ new ∧
          w1.receiver.clipboard_text = slot_after cfg w.log w.receiver.clipboard_text new ∧
          notifications w1.log =
            notifications w.log + clipboard_events cfg (dispatched new) ∧
          (last_clipboard cfg (dispatched new) = none →
            w1.receiver.clipboard_text = w.receiver.clipboard_text) ∧
          ∀ e, last_clipboard cfg (dispatched new) = some e →
            (w1.receiver.clipboard_text = some e.text ∨ w1.receiver.clipboard_text = none) ∧
            ((∀ l t, cfg.strdup_allocates l t = true) →
              w1.receiver.clipboard_text = some e.text) := by
  refine ⟨⟨by decide, by decide, rfl, ?_⟩, ?_⟩
  · exact ⟨World.emit (process_event sample_cfg
      (World.emit sample_world (.deserialize 0 11 10)) ⟨0, hello⟩) (.deserialize 10 1 (-1)),
      by decide, by decide, by decide⟩
  · intro cfg dec fuel w buf len w1 h
    obtain ⟨new, hl, hs, hn⟩ := process_events_loop_events cfg dec buf len fuel 0 w (-1) w1 h
    have hlast := slot_after_last cfg new w.log w.receiver.clipboard_text
    refine ⟨new, hl, hs, ?_, ?_, ?_⟩
    · rw [hl, notifications_append, hn]
    · intro h0
      rw [hs]
      exact hlast.1 h0
    · intro e he
      rw [hs]
      exact hlast.2 e he

/-- C17 at the concrete window: the last clipboard event dispatched before the
error is the event of `hello`, and the slot holds `hello`. -/
theorem failing_pass_is_not_atomic_witness :
    ∃ new,
      (World.emit (process_event sample_cfg
          (World.emit sample_world (.deserialize 0 11 10)) ⟨0, hello⟩)
          (.deserialize 10 1 (-1))).log = sample_world.log ++ new ∧
        last_clipboard sample_cfg (dispatched new) = some ⟨0, hello⟩ ∧
        (World.emit (process_event sample_cfg
          (World.emit sample_world (.deserialize 0 11 10)) ⟨0, hello⟩)
          (.deserialize 10 1 (-1))).receiver.clipboard_text = some hello := by
  obtain ⟨new, hl, -, -, -, he⟩ :=
    failing_pass_is_not_atomic.2 sample_cfg (device_event_deserialize sample_cfg) 2
      sample_world sample_bad_read.bytes 11
      (World.emit (process_event sample_cfg
        (World.emit sample_world (.deserialize 0 11 10)) ⟨0, hello⟩) (.deserialize 10 1 (-1)))
      (by decide)
  have hnew : new = [.deserialize 0 11 10, .process_event ⟨0, hello⟩, .SDL_PushEvent,
      .deserialize 10 1 (-1)] := by
    have h2 : (World.emit (process_event sample_cfg
        (World.emit sample_world (.deserialize 0 11 10)) ⟨0, hello⟩)
        (.deserialize 10 1 (-1))).log = sample_world.log ++
        [.deserialize 0 11 10, .process_event ⟨0, hello⟩, .SDL_PushEvent,
          .deserialize 10 1 (-1)] := by decide
    rw [h2] at hl
    exact (List.append_cancel_left hl).symm
  subst hnew
  exact ⟨_, hl, by decide, ((he ⟨0, hello⟩ (by decide)).2 (fun _ _ => rfl))⟩

/-- C17 as first stated fails when `SDL_strdup` returns `NULL`: with an allocator
that fails, on the frame of `hello` followed by the byte 9 `process_events`
returns `-1`, the one frame decoded before the error is the frame of `hello`,
one notification is posted, and the slot does not hold `hello`: it is `NULL`. -/
theorem failing_pass_is_not_atomic_counterexample :
    ∃ w1, process_events out_of_memory_cfg (device_event_deserialize out_of_memory_cfg) 2
        sample_world sample_bad_read.bytes 11 = some (-1, w1) ∧
      dispatched w1.log = [⟨0, hello⟩] ∧ notifications w1.log = 1 ∧
      ¬ w1.receiver.clipboard_text = some hello ∧ w1.receiver.clipboard_text = none :=
  ⟨World.emit (process_event out_of_memory_cfg
      (World.emit sample_world (.deserialize 0 11 10)) ⟨0, hello⟩) (.deserialize 10 1 (-1)),
    by decide, by decide, by decide, by decide, by decide⟩

end Receiver
